import Mathlib

/-!
# Overwatch — verification of spec claims against the source

Shallow embedding of the Overwatch MCP security proxy (TypeScript) in Lean 4.
Each section embeds one subsystem, translated from the source files under
`src/`, followed by theorems settling the corresponding spec claims.

Conventions used throughout:
* JS `number` timestamps are modelled as `Nat` (milliseconds).
* JS strings are Lean `String`s; where UTF-16 length or UTF-8 bytes matter,
  explicit helper functions are used.
* Fallible runtime primitives (`decodeURIComponent`, `JSON.parse`) return
  `Option`.
-/

namespace Overwatch

/-! ## Circuit breaker (src/proxy/mcp-proxy.ts, class CircuitBreaker) -/

/-- The three circuit-breaker states (`'closed' | 'open' | 'half-open'`). -/
inductive CBState where
  | closed
  | «open»
  | halfOpen
deriving DecidableEq, Repr

/-- `CircuitBreakerConfig` from the source (thresholds and timeout in ms). -/
structure CBConfig where
  failureThreshold : Nat
  resetTimeout : Nat
  successThreshold : Nat
deriving DecidableEq, Repr

/-- The mutable fields of `class CircuitBreaker`. -/
structure CircuitBreaker where
  state : CBState
  failureCount : Nat
  successCount : Nat
  lastFailureTime : Nat
  config : CBConfig
deriving DecidableEq, Repr

namespace CircuitBreaker

/-- `new CircuitBreaker(config)`: starts closed with zeroed counters. -/
def init (cfg : CBConfig) : CircuitBreaker :=
  { state := .closed, failureCount := 0, successCount := 0
    lastFailureTime := 0, config := cfg }

/-- `canExecute()` translated from the source.  `now` stands for `Date.now()`.
The JS test `now - lastFailureTime >= resetTimeout` is rendered as
`lastFailureTime + resetTimeout ≤ now`, which agrees with the JS comparison
for every `Nat` input (including `now < lastFailureTime`). -/
def canExecute (now : Nat) (cb : CircuitBreaker) : Bool × CircuitBreaker :=
  if cb.state = .closed then (true, cb)
  else if cb.state = .«open» then
    if cb.lastFailureTime + cb.config.resetTimeout ≤ now then
      (true, { cb with state := .halfOpen, successCount := 0 })
    else (false, cb)
  else
    -- half-open: allow limited requests
    (true, cb)

/-- `recordSuccess()` translated from the source. -/
def recordSuccess (cb : CircuitBreaker) : CircuitBreaker :=
  if cb.state = .halfOpen then
    let cb1 := { cb with successCount := cb.successCount + 1 }
    if cb1.config.successThreshold ≤ cb1.successCount then
      { cb1 with state := .closed, failureCount := 0 }
    else cb1
  else if cb.state = .closed then
    { cb with failureCount := 0 }
  else cb

/-- `recordFailure()` translated from the source.  `now` stands for
`Date.now()`. -/
def recordFailure (now : Nat) (cb : CircuitBreaker) : CircuitBreaker :=
  let cb1 := { cb with failureCount := cb.failureCount + 1, lastFailureTime := now }
  if cb1.state = .halfOpen then
    { cb1 with state := .«open» }
  else if cb1.state = .closed ∧ cb1.config.failureThreshold ≤ cb1.failureCount then
    { cb1 with state := .«open» }
  else cb1

/-- `reset()` translated from the source. -/
def reset (cb : CircuitBreaker) : CircuitBreaker :=
  { cb with state := .closed, failureCount := 0, successCount := 0 }

end CircuitBreaker

/-- Reference transition system written from the spec sentences
(spec section 4.8 and testable-property 6), to be compared with the code:
* closed: allow; success resets failure_count; failure increments
  failure_count and transitions to open at threshold.
* open: forbid; after reset_timeout since last_failure_time, the next
  can_execute query transitions to half_open and returns true.
* half_open: allow; success increments success_count and transitions to
  closed at success_threshold (zeroing failure_count); any failure
  transitions back to open.
No other transitions. -/
def specCanExecute (now : Nat) (cb : CircuitBreaker) : Bool × CircuitBreaker :=
  match cb.state with
  | .closed => (true, cb)
  | .«open» =>
    if cb.lastFailureTime + cb.config.resetTimeout ≤ now then
      (true, { cb with state := .halfOpen, successCount := 0 })
    else (false, cb)
  | .halfOpen => (true, cb)

/-- Spec-side `record_success` (see `specCanExecute` for provenance). -/
def specRecordSuccess (cb : CircuitBreaker) : CircuitBreaker :=
  match cb.state with
  | .closed => { cb with failureCount := 0 }
  | .«open» => cb
  | .halfOpen =>
    if cb.config.successThreshold ≤ cb.successCount + 1 then
      { cb with successCount := cb.successCount + 1, state := .closed, failureCount := 0 }
    else { cb with successCount := cb.successCount + 1 }

/-- Spec-side `record_failure` (see `specCanExecute` for provenance). -/
def specRecordFailure (now : Nat) (cb : CircuitBreaker) : CircuitBreaker :=
  match cb.state with
  | .closed =>
    if cb.config.failureThreshold ≤ cb.failureCount + 1 then
      { cb with failureCount := cb.failureCount + 1, lastFailureTime := now, state := .«open» }
    else { cb with failureCount := cb.failureCount + 1, lastFailureTime := now }
  | .«open» => { cb with failureCount := cb.failureCount + 1, lastFailureTime := now }
  | .halfOpen => { cb with failureCount := cb.failureCount + 1, lastFailureTime := now, state := .«open» }

/-- C2.  The circuit breaker realizes exactly the claimed transition system:
the code operations coincide with the spec-side machine, and whenever an
operation changes the state the change is one of the enumerated arrows
(closed→open at the failure threshold; open→half_open by a `canExecute` call
once `reset_timeout` has elapsed, returning true; half_open→closed at the
success threshold, zeroing `failureCount`; half_open→open on any failure);
`canExecute` in the open state returns false before the timeout elapses and
leaves the breaker unchanged, and a success in the closed state keeps it
closed and resets `failureCount`. -/
theorem circuitBreaker_transitions_exact (cb : CircuitBreaker) (now : Nat) :
    (CircuitBreaker.canExecute now cb = specCanExecute now cb ∧
     CircuitBreaker.recordSuccess cb = specRecordSuccess cb ∧
     CircuitBreaker.recordFailure now cb = specRecordFailure now cb) ∧
    ((CircuitBreaker.recordSuccess cb).state ≠ cb.state →
       cb.state = .halfOpen ∧ (CircuitBreaker.recordSuccess cb).state = .closed ∧
       cb.config.successThreshold ≤ cb.successCount + 1 ∧
       (CircuitBreaker.recordSuccess cb).failureCount = 0) ∧
    ((CircuitBreaker.recordFailure now cb).state ≠ cb.state →
       (cb.state = .closed ∧ (CircuitBreaker.recordFailure now cb).state = .«open» ∧
          cb.config.failureThreshold ≤ cb.failureCount + 1) ∨
       (cb.state = .halfOpen ∧ (CircuitBreaker.recordFailure now cb).state = .«open»)) ∧
    (((CircuitBreaker.canExecute now cb).2.state ≠ cb.state) →
       cb.state = .«open» ∧ (CircuitBreaker.canExecute now cb).2.state = .halfOpen ∧
       cb.lastFailureTime + cb.config.resetTimeout ≤ now ∧
       (CircuitBreaker.canExecute now cb).1 = true) ∧
    (cb.state = .«open» → ¬ (cb.lastFailureTime + cb.config.resetTimeout ≤ now) →
       CircuitBreaker.canExecute now cb = (false, cb)) ∧
    (cb.state = .closed →
       CircuitBreaker.recordSuccess cb = { cb with failureCount := 0 }) ∧
    (cb.state = .closed → cb.failureCount + 1 < cb.config.failureThreshold →
       (CircuitBreaker.recordFailure now cb).state = .closed) := by
  rcases cb with ⟨st, fc, sc, lft, cfg⟩
  cases st <;>
    refine ⟨⟨?_, ?_, ?_⟩, ?_, ?_, ?_, ?_, ?_, ?_⟩ <;>
    simp only [CircuitBreaker.canExecute, CircuitBreaker.recordSuccess,
      CircuitBreaker.recordFailure, specCanExecute, specRecordSuccess,
      specRecordFailure] <;>
    split_ifs <;> simp_all <;> omega

/-- Witness for `circuitBreaker_transitions_exact` at a concrete breaker:
an open breaker whose reset timeout has elapsed moves to half-open and
returns true from `canExecute`. -/
theorem circuitBreaker_transitions_exact_witness :
    (CircuitBreaker.canExecute 100
        { state := .«open», failureCount := 2, successCount := 0,
          lastFailureTime := 10,
          config := { failureThreshold := 2, resetTimeout := 50, successThreshold := 1 } }).1
      = true := by
  have h := circuitBreaker_transitions_exact
    { state := .«open», failureCount := 2, successCount := 0,
      lastFailureTime := 10,
      config := { failureThreshold := 2, resetTimeout := 50, successThreshold := 1 } } 100
  have h1 := h.1.1
  rw [h1]
  decide

/-! ## JavaScript value model

Dynamic `Record<string, unknown>` payloads (tool arguments, tool descriptors,
JSON schemas) are modelled as a sum type.  `undef` is JavaScript `undefined`
(a missing property), distinct from JSON `null`.  Numbers are modelled as
integers (the schemas and arguments in this code base carry integral
numbers; floating point is out of scope). -/

inductive JSValue where
  | undef
  | null
  | bool (b : Bool)
  | num (n : Int)
  | str (s : String)
  | arr (elems : List JSValue)
  | obj (props : List (String × JSValue))

/-- First value stored under a key (JS objects keep keys unique). -/
def lookupKey : List (String × JSValue) → String → Option JSValue
  | [], _ => none
  | (k2, v) :: ps, k => if k2 == k then some v else lookupKey ps k

namespace JSValue

/-- JS property access `o[key]`: first matching key, `undefined` if absent
(our object model keeps keys unique, as JS objects do). -/
def getProp : JSValue → String → JSValue
  | .obj props, key =>
    match lookupKey props key with
    | some v => v
    | none => .undef
  | _, _ => undef

end JSValue

/-! ## Glob-to-regex compilation and a matcher for the produced fragment
(src/proxy/policy-engine.ts)

The engine builds regexes of a very restricted shape: literals (some
backslash-escaped), `.` wildcards, and `*`/`?` postfix quantifiers.  We model
`new RegExp(r).test(s)` for exactly this fragment with a small backtracking
matcher (`rmatch`); for anchored patterns `test` is full-string match. -/

/-- Left brace / right brace characters (written via code points). -/
def lbraceChar : Char := Char.ofNat 123

/-- See `lbraceChar`. -/
def rbraceChar : Char := Char.ofNat 125

/-- The character class `[.+^$\x7b\x7d()|[\]\\]` escaped by
`pattern.replace(/[.+^$\x7b\x7d()|[\]\\]/g, "\\$&")` in the source. -/
def regexEscapeSet : List Char :=
  ['.', '+', '^', '$', lbraceChar, rbraceChar, '(', ')', '|', '[', ']', '\\']

/-- `PolicyEngine.patternToRegex` (tool patterns): escape metacharacters,
then `*` → `.*`, anchored.  Note: no `?` translation step here. -/
def patternToRegex (p : String) : String :=
  let escaped := p.data.flatMap (fun c => if c ∈ regexEscapeSet then ['\\', c] else [c])
  let starred := escaped.flatMap (fun c => if c = '*' then ['.', '*'] else [c])
  ⟨'^' :: starred ++ ['$']⟩

/-- The inline regex construction of `PolicyEngine.matchPath` (path
patterns): escape metacharacters, `*` → `.*`, then `?` → `.`, anchored. -/
def pathPatternToRegex (p : String) : String :=
  let escaped := p.data.flatMap (fun c => if c ∈ regexEscapeSet then ['\\', c] else [c])
  let starred := escaped.flatMap (fun c => if c = '*' then ['.', '*'] else [c])
  let dotted := starred.flatMap (fun c => if c = '?' then ['.'] else [c])
  ⟨'^' :: dotted ++ ['$']⟩

/-- The regex construction described by the spec sentence "escape regex
metacharacters, then `*` → `.*`, `?` → `.`", anchored.  Written from the
claim text, to be compared with the code. -/
def specGlobRegex (p : String) : String :=
  let escaped := p.data.flatMap (fun c => if c ∈ regexEscapeSet then ['\\', c] else [c])
  let starred := escaped.flatMap (fun c => if c = '*' then ['.', '*'] else [c])
  let dotted := starred.flatMap (fun c => if c = '?' then ['.'] else [c])
  ⟨'^' :: dotted ++ ['$']⟩

/-- JS `String.prototype.includes(c)` for a single character. -/
def strContainsChar (s : String) (c : Char) : Bool :=
  s.data.contains c

/-- Regex atoms appearing in the produced fragment. -/
inductive RAtom where
  | lit (c : Char)
  | dot
deriving DecidableEq, Repr

/-- Postfix quantifiers appearing in the produced fragment. -/
inductive RQuant where
  | one
  | star
  | opt
deriving DecidableEq, Repr

/-- JS `.` (without the `s` flag) matches any char except line terminators. -/
def ratomMatch : RAtom → Char → Bool
  | .lit c, d => c == d
  | .dot, d =>
    !(d == '\n' || d == '\r' || d == Char.ofNat 0x2028 || d == Char.ofNat 0x2029)

/-- Parse the body of a produced regex (between `^` and `$`) into a token
list.  A leading quantifier with nothing to quantify is a syntax error
(`none`, corresponding to the `RegExp` constructor throwing). -/
def parseRegexBody : List Char → Option (List (RAtom × RQuant))
  | [] => some []
  | '*' :: _ => none
  | '?' :: _ => none
  | '\\' :: rest =>
    match rest with
    | [] => none
    | c :: '*' :: rest2 => (parseRegexBody rest2).map ((RAtom.lit c, RQuant.star) :: ·)
    | c :: '?' :: rest2 => (parseRegexBody rest2).map ((RAtom.lit c, RQuant.opt) :: ·)
    | c :: rest2 => (parseRegexBody rest2).map ((RAtom.lit c, RQuant.one) :: ·)
  | '.' :: '*' :: rest => (parseRegexBody rest).map ((RAtom.dot, RQuant.star) :: ·)
  | '.' :: '?' :: rest => (parseRegexBody rest).map ((RAtom.dot, RQuant.opt) :: ·)
  | '.' :: rest => (parseRegexBody rest).map ((RAtom.dot, RQuant.one) :: ·)
  | c :: '*' :: rest => (parseRegexBody rest).map ((RAtom.lit c, RQuant.star) :: ·)
  | c :: '?' :: rest => (parseRegexBody rest).map ((RAtom.lit c, RQuant.opt) :: ·)
  | c :: rest => (parseRegexBody rest).map ((RAtom.lit c, RQuant.one) :: ·)

/-- Backtracking matcher for the token list against a full string, with an
explicit fuel argument (kept structural so that proofs can evaluate it).
Every recursive call shrinks `ts.length + cs.length`, so the fuel chosen in
`rmatch` below is never exhausted. -/
def rmatchFuel : Nat → List (RAtom × RQuant) → List Char → Bool
  | 0, _, _ => false
  | _ + 1, [], [] => true
  | _ + 1, [], _ :: _ => false
  | _ + 1, (_, .one) :: _, [] => false
  | fuel + 1, (a, .one) :: ts, c :: cs => ratomMatch a c && rmatchFuel fuel ts cs
  | fuel + 1, (a, .opt) :: ts, cs =>
    rmatchFuel fuel ts cs ||
      (match cs with
       | [] => false
       | c :: cs2 => ratomMatch a c && rmatchFuel fuel ts cs2)
  | fuel + 1, (a, .star) :: ts, cs =>
    rmatchFuel fuel ts cs ||
      (match cs with
       | [] => false
       | c :: cs2 => ratomMatch a c && rmatchFuel fuel ((a, .star) :: ts) cs2)

/-- Matcher entry point with sufficient fuel. -/
def rmatch (ts : List (RAtom × RQuant)) (cs : List Char) : Bool :=
  rmatchFuel (ts.length + cs.length + 1) ts cs

/-- `new RegExp(r).test(s)` for the produced anchored fragment.  A regex the
parser rejects corresponds to the constructor throwing (never reached for
patterns that passed load-time validation); we return `false` there. -/
def regexTest (r : String) (s : String) : Bool :=
  match r.data with
  | '^' :: rest =>
    if rest.getLast? = some '$' then
      match parseRegexBody rest.dropLast with
      | some ts => rmatch ts s.data
      | none => false
    else false
  | _ => false

/-! ## Policy engine (src/proxy/policy-engine.ts) -/

/-- `policy.tools` in the declarative config: absent, a single string, or a
list of strings (`string | string[]`). -/
inductive ToolsField where
  | absent
  | single (s : String)
  | many (l : List String)
deriving DecidableEq, Repr

/-- JS falsiness of `policy.tools` (`!policy.tools`): absent or the empty
string; an array (even empty) is truthy. -/
def ToolsField.falsy : ToolsField → Bool
  | .absent => true
  | .single s => s == ""
  | .many _ => false

/-- `Array.isArray(policy.tools) ? policy.tools : [policy.tools]`. -/
def ToolsField.asArray : ToolsField → List String
  | .absent => []
  | .single s => [s]
  | .many l => l

/-- `policy.paths` in the declarative config. -/
structure PolicyPaths where
  allow : Option (List String)
  deny : Option (List String)
deriving DecidableEq, Repr

/-- One declarative policy rule (`PolicyConfig` in the source; actions and
risk levels are kept as the strings the source uses). -/
structure PolicyRule where
  tools : ToolsField
  action : Option String
  paths : Option PolicyPaths
deriving DecidableEq, Repr

/-- Per-server config as far as the engine reads it. -/
structure ServerCfg where
  command : Option String
  policies : Option (List PolicyRule)
deriving DecidableEq, Repr

/-- The state the compiled engine consults in `evaluate`: the cached
`defaultAction` and the `servers` table.  The compiled-pattern cache is
omitted — it stores regexes identical to the ones rebuilt on demand. -/
structure EngineState where
  defaultAction : String
  servers : List (String × ServerCfg)
deriving DecidableEq, Repr

/-- `(config.defaults?.action as PolicyAction) || 'prompt'`. -/
def mkDefaultAction : Option String → String
  | some a => if a = "" then "prompt" else a
  | none => "prompt"

/-- `PolicyDecision` from the source. -/
structure PolicyDecision where
  action : String
  riskLevel : String
  reason : String
  matchedPolicy : Option String
deriving DecidableEq, Repr

/-- The per-pattern test inside `PolicyEngine.matchesPolicy`: `*` matches
everything, otherwise literal equality, otherwise (only when the pattern
contains `*`) the compiled regex. -/
def toolPatternMatches (pattern tool : String) : Bool :=
  pattern == "*" || pattern == tool ||
    (strContainsChar pattern '*' && regexTest (patternToRegex pattern) tool)

/-- `PolicyEngine.matchesPolicy`. -/
def matchesPolicy (rule : PolicyRule) (tool : String) : Bool :=
  if rule.tools.falsy then true
  else rule.tools.asArray.any (fun pattern => toolPatternMatches pattern tool)

/-- `PolicyEngine.matchPath`. -/
def matchPath (path pattern : String) : Bool :=
  if pattern = "*" then true
  else if pattern = path then true
  else regexTest (pathPatternToRegex pattern) path

/-- The path-typed argument keys recognized by `extractPath`. -/
def pathKeys : List String :=
  ["path", "file", "filename", "filepath", "directory", "dir"]

/-- `PolicyEngine.extractPath`: the first path-typed key holding a string
value, else the empty string. -/
def extractPath (args : List (String × JSValue)) : String :=
  match pathKeys.findSome? (fun k =>
      match (JSValue.obj args).getProp k with
      | .str s => some s
      | _ => none) with
  | some s => s
  | none => ""

/-- `PolicyEngine.evaluatePolicy`: path rules first (deny, then allow), then
the static action; `smart` (and a missing or empty action) falls through. -/
def evaluatePolicy (rule : PolicyRule) (args : List (String × JSValue)) :
    Option PolicyDecision :=
  let fromPaths : Option PolicyDecision :=
    match rule.paths with
    | none => none
    | some ps =>
      let pathArg := extractPath args
      if pathArg ≠ "" then
        if (ps.deny.getD []).any (fun p => matchPath pathArg p) then
          some ⟨"deny", "dangerous", "Path matches deny pattern", none⟩
        else if (ps.allow.getD []).any (fun p => matchPath pathArg p) then
          some ⟨"allow", "safe", "Path matches allow pattern", none⟩
        else none
      else none
  match fromPaths with
  | some d => some d
  | none =>
    match rule.action with
    | some a => if a ≠ "" ∧ a ≠ "smart" then
        some ⟨a, "write", "Policy static action", none⟩
      else none
    | none => none

/-- `PolicyEngine.policyDescription`. -/
def policyDescription (rule : PolicyRule) : String :=
  let parts :=
    (if rule.tools.falsy then []
     else ["tools: " ++ String.intercalate ", " rule.tools.asArray]) ++
    (match rule.action with
     | some a => if a ≠ "" then ["action: " ++ a] else []
     | none => [])
  let s := String.intercalate ", " parts
  if s = "" then "default policy" else s

/-- The `for (const policy of policies)` loop in `evaluate`: first matching
rule that yields a decision wins; a matching rule that yields none falls
through to the next. -/
def findRuleDecision (rules : List PolicyRule) (tool : String)
    (args : List (String × JSValue)) : Option PolicyDecision :=
  match rules with
  | [] => none
  | rule :: rest =>
    if matchesPolicy rule tool then
      match evaluatePolicy rule args with
      | some d => some { d with matchedPolicy := some (policyDescription rule) }
      | none => findRuleDecision rest tool args
    else findRuleDecision rest tool args

/-- JS `String.prototype.toLowerCase` restricted to ASCII (tool names in
this code base are ASCII; the non-ASCII cases are not exercised here). -/
def asciiLower (s : String) : String :=
  ⟨s.data.map (fun c =>
    if 'A' ≤ c ∧ c ≤ 'Z' then Char.ofNat (c.toNat + 32) else c)⟩

/-- JS `String.prototype.includes` (substring containment). -/
def containsSubstr (s sub : String) : Bool :=
  (List.range (s.data.length + 1)).any
    (fun i => (s.data.drop i).take sub.data.length == sub.data)

/-- `PolicyEngine.inferFromToolName`. -/
def inferFromToolName (defaultAction tool : String) : PolicyDecision :=
  let toolLower := asciiLower tool
  if containsSubstr toolLower "delete" || containsSubstr toolLower "remove" ||
     containsSubstr toolLower "drop" || containsSubstr toolLower "truncate" then
    ⟨"prompt", "destructive", "Destructive operation inferred from tool name", none⟩
  else if containsSubstr toolLower "write" || containsSubstr toolLower "create" ||
     containsSubstr toolLower "update" || containsSubstr toolLower "insert" ||
     containsSubstr toolLower "modify" || containsSubstr toolLower "set" then
    ⟨"prompt", "write", "Write operation inferred from tool name", none⟩
  else if containsSubstr toolLower "read" || containsSubstr toolLower "get" ||
     containsSubstr toolLower "list" || containsSubstr toolLower "search" ||
     containsSubstr toolLower "find" || containsSubstr toolLower "query" then
    ⟨"allow", "read", "Read operation inferred from tool name", none⟩
  else
    ⟨defaultAction, "write", "Unknown tool type", none⟩

/-- `PolicyEngine.evaluate`. -/
def evaluate (st : EngineState) (serverName tool : String)
    (args : List (String × JSValue)) : PolicyDecision :=
  match st.servers.lookup serverName with
  | none => ⟨st.defaultAction, "write", "No server configuration found", none⟩
  | some sc =>
    match findRuleDecision (sc.policies.getD []) tool args with
    | some d => d
    | none => inferFromToolName st.defaultAction tool

/-- C10.  When the configuration has no entry for the requested server,
`evaluate` returns the cached default action with risk level `write`,
reason "No server configuration found" and no matched rule — rule matching
and name-based risk inference are bypassed; and the cached default action
is `prompt` when the config declares none. -/
theorem evaluate_unknown_server (st : EngineState) (serverName tool : String)
    (args : List (String × JSValue))
    (h : st.servers.lookup serverName = none) :
    evaluate st serverName tool args =
      ⟨st.defaultAction, "write", "No server configuration found", none⟩ ∧
    mkDefaultAction none = "prompt" := by
  constructor
  · unfold evaluate
    rw [h]
  · rfl

/-- Witness for `evaluate_unknown_server`: a config with one server `fs`
evaluated for server `db` and a destructive-sounding tool still yields the
default with risk `write` and no matched rule. -/
theorem evaluate_unknown_server_witness :
    evaluate
        { defaultAction := "prompt",
          servers := [("fs", { command := some "srv", policies := none })] }
        "db" "delete_file" [("path", JSValue.str "/tmp/x")] =
      ⟨"prompt", "write", "No server configuration found", none⟩ := by
  exact (evaluate_unknown_server
    { defaultAction := "prompt",
      servers := [("fs", { command := some "srv", policies := none })] }
    "db" "delete_file" [("path", JSValue.str "/tmp/x")] (by decide)).1

/-- C9 counterexample.  The claim says a `?` in a policy tool pattern stands
for one arbitrary character; but the tool-pattern compiler has no `?`
translation step, and a pattern without `*` is only matched by literal
equality, so `get_?` fails to match `get_x` even though the spec-described
glob matcher accepts it. -/
theorem toolPattern_question_counterexample :
    regexTest (specGlobRegex "get_?") "get_x" = true ∧
    toolPatternMatches "get_?" "get_x" = false := by
  constructor <;> decide

/-- C9 amended.  Path patterns compile to exactly the spec-described
anchored regex (escape metacharacters, `*` → `.*`, `?` → `.`), while a tool
pattern containing no `*` is matched only literally (or via the universal
pattern `*`) — its `?` characters are not wildcards. -/
theorem patternToRegex_amended :
    (∀ p : String, pathPatternToRegex p = specGlobRegex p) ∧
    (∀ pattern tool : String, strContainsChar pattern '*' = false →
      toolPatternMatches pattern tool = (pattern == "*" || pattern == tool)) := by
  constructor
  · intro p
    rfl
  · intro pattern tool h
    unfold toolPatternMatches
    rw [h]
    simp

/-- Witness for `patternToRegex_amended`: `get_?` contains no `*`, so it
matches only itself; in particular it matches the tool `get_?` and not
`get_x`. -/
theorem patternToRegex_amended_witness :
    toolPatternMatches "get_?" "get_?" = (("get_?" : String) == "*" || ("get_?" : String) == "get_?") := by
  exact patternToRegex_amended.2 "get_?" "get_?" (by decide)

/-! ## Session store (src/approval/terminal.ts, class SessionStore)

One SQLite row of the `sessions` table.  `NULL`able columns are `Option`s;
timestamps are epoch milliseconds. -/

structure SessionRow where
  id : String
  scope : String
  pattern : String
  server : Option String
  createdAt : Nat
  expiresAt : Nat
  approver : Option String
  toolName : Option String
  useCount : Nat
  lastUsedAt : Option Nat
  revokedAt : Option Nat
  revokedBy : Option String
  revokeReason : Option String
deriving DecidableEq, Repr

/-- JS `reason || null`: the empty string is falsy and stored as NULL. -/
def jsStrOrNull : Option String → Option String
  | some s => if s == "" then none else some s
  | none => none

/-- The `SET revoked_at = ?, revoked_by = ?, revoke_reason = ?` update. -/
def stampRevocation (now : Nat) (revokedBy : String) (reason : Option String)
    (r : SessionRow) : SessionRow :=
  { r with revokedAt := some now, revokedBy := some revokedBy,
           revokeReason := jsStrOrNull reason }

/-- The WHERE clause of `revokeByPattern`:
`pattern = ? AND revoked_at IS NULL`. -/
def revokablePattern (pattern : String) (r : SessionRow) : Bool :=
  r.pattern == pattern && r.revokedAt == none

/-- The WHERE clause of `revokeByServer`:
`server = ? AND revoked_at IS NULL` (SQL equality never matches NULL). -/
def revokableServer (server : String) (r : SessionRow) : Bool :=
  r.server == some server && r.revokedAt == none

/-- `SessionStore.revokeByPattern`: one UPDATE statement; returns
`result.changes` (the number of updated rows) and the updated table. -/
def revokeByPattern (now : Nat) (pattern revokedBy : String)
    (reason : Option String) (rows : List SessionRow) : Nat × List SessionRow :=
  (rows.countP (fun r => revokablePattern pattern r),
   rows.map (fun r =>
     if revokablePattern pattern r then stampRevocation now revokedBy reason r else r))

/-- `SessionStore.revokeByServer`: one UPDATE statement; returns
`result.changes` and the updated table. -/
def revokeByServer (now : Nat) (server revokedBy : String)
    (reason : Option String) (rows : List SessionRow) : Nat × List SessionRow :=
  (rows.countP (fun r => revokableServer server r),
   rows.map (fun r =>
     if revokableServer server r then stampRevocation now revokedBy reason r else r))

/-- A concrete expired, unrevoked grant used in the C8 counterexample. -/
def expiredGrant : SessionRow :=
  { id := "g1", scope := "tool", pattern := "read_*", server := none,
    createdAt := 0, expiresAt := 50, approver := some "admin",
    toolName := some "read_file", useCount := 3, lastUsedAt := some 40,
    revokedAt := none, revokedBy := none, revokeReason := none }

/-- C8 counterexample.  The claim restricts bulk revocation to grants that
are still active (not yet expired); but the UPDATE in `revokeByPattern` has
no expiry condition (`WHERE pattern = ? AND revoked_at IS NULL`), so at time
1000 a grant that expired at 50 is stamped and counted.  The claim would
require the count 0 and the row unchanged. -/
theorem revokeByPattern_expired_counterexample :
    expiredGrant.expiresAt ≤ 1000 ∧ expiredGrant.revokedAt = none ∧
    revokeByPattern 1000 "read_*" "admin" none [expiredGrant] =
      (1, [{ expiredGrant with revokedAt := some 1000, revokedBy := some "admin" }]) := by
  refine ⟨by decide, rfl, ?_⟩
  rfl

/-- C8 amended.  `revoke_by_pattern` and `revoke_by_server` stamp revocation
on exactly the not-already-revoked grants whose stored pattern
(respectively server) field equals the argument — expired grants included —
return the number of grants so stamped, and leave every other grant
unchanged. -/
theorem revokeBulk_exact_frame (now : Nat) (key revokedBy : String)
    (reason : Option String) (rows : List SessionRow) :
    ((revokeByPattern now key revokedBy reason rows).1 =
        rows.countP (fun r => r.pattern == key && r.revokedAt == none) ∧
      List.Forall₂ (fun r r2 =>
          (r.pattern = key ∧ r.revokedAt = none →
            r2 = stampRevocation now revokedBy reason r) ∧
          (¬ (r.pattern = key ∧ r.revokedAt = none) → r2 = r))
        rows (revokeByPattern now key revokedBy reason rows).2) ∧
    ((revokeByServer now key revokedBy reason rows).1 =
        rows.countP (fun r => r.server == some key && r.revokedAt == none) ∧
      List.Forall₂ (fun r r2 =>
          (r.server = some key ∧ r.revokedAt = none →
            r2 = stampRevocation now revokedBy reason r) ∧
          (¬ (r.server = some key ∧ r.revokedAt = none) → r2 = r))
        rows (revokeByServer now key revokedBy reason rows).2) := by
  refine ⟨⟨rfl, ?_⟩, rfl, ?_⟩ <;>
  · induction rows with
    | nil => simp [revokeByPattern, revokeByServer]
    | cons r rest ih =>
      refine List.Forall₂.cons ?_ ih
      constructor
      · intro h
        simp [revokablePattern, revokableServer, h.1, h.2]
      · intro h
        simp only [revokablePattern, revokableServer]
        split <;> simp_all

/-! ## Session match (src/approval/store.ts, SessionStore.findMatch) and the
proxy tool-call pipeline (src/proxy/mcp-proxy.ts, MCPProxy.handleToolCall /
MCPProxy.requestApproval) -/

/-- `SessionStore.matchPattern`: `*` wildcard as bare, prefix or suffix. -/
def sessionMatchPattern (pattern tool : String) : Bool :=
  if pattern == "*" then true
  else if (pattern.data.getLast? == some '*') then
    -- pattern.endsWith("*"): tool.startsWith(pattern.slice(0, -1))
    tool.data.take (pattern.data.length - 1) == pattern.data.dropLast
  else if (pattern.data.head? == some '*') then
    -- pattern.startsWith("*"): tool.endsWith(pattern.slice(1))
    tool.data.drop (tool.data.length - (pattern.data.length - 1)) == pattern.data.tail
  else pattern == tool

/-- JS truthiness of the row's `server` column (`session.server`):
present and non-empty. -/
def serverTruthy (r : SessionRow) : Bool :=
  match r.server with
  | some s => s != ""
  | none => false

/-- The per-row match of `SessionStore.findMatch` (server constraint, then
the scope switch). -/
def sessionRowMatches (tool : String) (server : Option String)
    (r : SessionRow) : Bool :=
  if serverTruthy r && r.server != server then false
  else if r.scope == "exact" then r.pattern == tool
  else if r.scope == "tool" then sessionMatchPattern r.pattern tool
  else if r.scope == "server" then !serverTruthy r || r.server == server
  else false

/-- Insertion into a list kept sorted by `createdAt` descending (models the
`ORDER BY created_at DESC` of the `findMatch` query). -/
def insertByCreatedDesc (r : SessionRow) : List SessionRow → List SessionRow
  | [] => [r]
  | x :: xs =>
    if x.createdAt ≤ r.createdAt then r :: x :: xs
    else x :: insertByCreatedDesc r xs

/-- Sort by `createdAt` descending. -/
def sortByCreatedDesc (rows : List SessionRow) : List SessionRow :=
  rows.foldr insertByCreatedDesc []

/-- `SessionStore.findMatch`: scan active (unexpired, unrevoked) grants in
most-recent-first order, returning the first whose scope matches. -/
def findMatch (now : Nat) (tool : String) (server : Option String)
    (rows : List SessionRow) : Option SessionRow :=
  ((sortByCreatedDesc rows).filter
      (fun r => decide (now < r.expiresAt) && r.revokedAt == none)).find?
    (fun r => sessionRowMatches tool server r)

/-- Proxy fail mode (`'open' | 'closed' | 'readonly'`). -/
inductive FailMode where
  | fmOpen
  | fmClosed
  | fmReadonly
deriving DecidableEq, Repr

/-- What the approval handler call does: returns a response or throws. -/
inductive HandlerOutcome where
  | ok (approved : Bool)
  | error
deriving DecidableEq, Repr

/-- `MCPProxy.requestApproval`: always calls the configured approval
handler; on a thrown error, the fail mode decides (`open` → allow,
otherwise deny).  The absent fail mode defaults to `closed`. -/
def requestApprovalResult (failMode : Option FailMode)
    (outcome : HandlerOutcome) : Bool :=
  match outcome with
  | .ok approved => approved
  | .error =>
    match failMode.getD .fmClosed with
    | .fmOpen => true
    | _ => false

/-- Observable effects of the synchronous part of
`MCPProxy.handleToolCall`, in program order. -/
inductive ToolCallEvent where
  | sentErrorResponse (id : Nat) (code : Int) (message : String)
  | approvalRequested (tool : String)
  | forwardedUpstream (id : Nat)
  | auditLogged (decision : String) (error : Option String)
deriving DecidableEq, Repr

/-- `JSONRPCErrorCodes.TOOL_DENIED`. -/
def TOOL_DENIED : Int := -32001

/-- `MCPProxy.handleToolCall` translated from the source: evaluate policy;
deny → error reply and `denied` audit; prompt → call `requestApproval`
(which always invokes the approval handler — the session grant cache is
nowhere consulted) and deny or forward on its verdict; otherwise forward
and audit `allowed`. -/
def handleToolCall (st : EngineState) (serverName : String)
    (failMode : Option FailMode) (id : Nat) (toolName : String)
    (args : List (String × JSValue)) (outcome : HandlerOutcome) :
    List ToolCallEvent :=
  let decision := evaluate st serverName toolName args
  if decision.action == "deny" then
    [.sentErrorResponse id TOOL_DENIED ("Tool call denied: " ++ decision.reason),
     .auditLogged "denied" (some decision.reason)]
  else if decision.action == "prompt" then
    .approvalRequested toolName ::
      (if requestApprovalResult failMode outcome then
        [.forwardedUpstream id, .auditLogged "allowed" none]
      else
        [.sentErrorResponse id TOOL_DENIED "Tool call denied by user",
         .auditLogged "denied" (some "User denied")])
  else
    [.forwardedUpstream id, .auditLogged "allowed" none]

/-- An active grant covering `read_*`, as produced by an earlier `5min`
approval (scenario S6 of the spec). -/
def activeReadGrant : SessionRow :=
  { id := "g2", scope := "tool", pattern := "read_*", server := none,
    createdAt := 900, expiresAt := 300000, approver := some "user",
    toolName := some "read_file", useCount := 0, lastUsedAt := none,
    revokedAt := none, revokedBy := none, revokeReason := none }

/-- C1.  The code contradicts the claim: on a `prompt` decision
`handleToolCall` always invokes the approval handler — it takes no session
state and never consults the grant cache — even though the session store
(`findMatch`) would report an active matching grant for the same call.  The
first conjunct evaluates the pipeline for the failing input, the second
shows the grant cache would have matched it. -/
theorem handleToolCall_prompt_ignores_grant_cache (st : EngineState)
    (serverName : String) (failMode : Option FailMode) (id : Nat)
    (toolName : String) (args : List (String × JSValue))
    (outcome : HandlerOutcome)
    (h : (evaluate st serverName toolName args).action = "prompt") :
    ToolCallEvent.approvalRequested toolName ∈
      handleToolCall st serverName failMode id toolName args outcome ∧
    findMatch 1000 "read_file" none [activeReadGrant] = some activeReadGrant := by
  constructor
  · unfold handleToolCall
    simp only [h]
    simp
  · rfl

/-- Witness for `handleToolCall_prompt_ignores_grant_cache`: the proxy for
server `fs` with an unconfigured policy (default `prompt`) calls the
approval handler for `read_file`...  the very tool the active grant
`read_*` covers.  (`"write_x"` tools would infer `prompt` as well; here the
unknown-tool default is used.) -/
theorem handleToolCall_prompt_ignores_grant_cache_witness :
    ToolCallEvent.approvalRequested "dump" ∈
      handleToolCall
        { defaultAction := "prompt",
          servers := [("fs", { command := some "srv", policies := some [] })] }
        "fs" none 7 "dump" [] (.ok true) := by
  exact (handleToolCall_prompt_ignores_grant_cache
    { defaultAction := "prompt",
      servers := [("fs", { command := some "srv", policies := some [] })] }
    "fs" none 7 "dump" [] (.ok true) (by decide)).1

/-! ## JSON values and `JSON.parse` (runtime primitive model)

`Json` models the JSON data reachable in this code base.  Numbers are
modelled as integers: every literal appearing in the schemas, messages and
tests of the repository is integral (floating point is out of scope). -/

inductive Json where
  | null
  | bool (b : Bool)
  | num (n : Int)
  | str (s : String)
  | arr (elems : List Json)
  | obj (props : List (String × Json))

/-- JSON whitespace (space, tab, LF, CR). -/
def isJsonWs (c : Char) : Bool :=
  c == ' ' || c == '\t' || c == '\n' || c == '\r'

/-- Skip JSON whitespace. -/
def skipJsonWs (l : List Char) : List Char :=
  l.dropWhile isJsonWs

/-- Hex digit value. -/
def hexVal (c : Char) : Option Nat :=
  if '0' ≤ c ∧ c ≤ '9' then some (c.toNat - '0'.toNat)
  else if 'a' ≤ c ∧ c ≤ 'f' then some (c.toNat - 'a'.toNat + 10)
  else if 'A' ≤ c ∧ c ≤ 'F' then some (c.toNat - 'A'.toNat + 10)
  else none

/-- Decimal digit? -/
def isDigitChar (c : Char) : Bool :=
  '0' ≤ c && c ≤ '9'

/-- JSON string body parser (after the opening quote), fueled.  `\uXXXX`
escapes are mapped through `Char.ofNat` (lone surrogates are outside the
scalar-value string model and are not exercised by any claim). -/
def parseJsonStringAux : Nat → List Char → Option (List Char × List Char)
  | 0, _ => none
  | _ + 1, [] => none
  | _ + 1, '"' :: rest => some ([], rest)
  | fuel + 1, '\\' :: rest =>
    match rest with
    | [] => none
    | c :: rest2 =>
      let esc : Option (Char × List Char) :=
        if c = '"' then some ('"', rest2)
        else if c = '\\' then some ('\\', rest2)
        else if c = '/' then some ('/', rest2)
        else if c = 'b' then some (Char.ofNat 8, rest2)
        else if c = 'f' then some (Char.ofNat 12, rest2)
        else if c = 'n' then some ('\n', rest2)
        else if c = 'r' then some ('\r', rest2)
        else if c = 't' then some ('\t', rest2)
        else if c = 'u' then
          match rest2 with
          | h1 :: h2 :: h3 :: h4 :: rest3 =>
            match hexVal h1, hexVal h2, hexVal h3, hexVal h4 with
            | some a, some b, some cc, some d =>
              some (Char.ofNat (((a * 16 + b) * 16 + cc) * 16 + d), rest3)
            | _, _, _, _ => none
          | _ => none
        else none
      match esc with
      | some (ch, r) =>
        match parseJsonStringAux fuel r with
        | some (cs, rr) => some (ch :: cs, rr)
        | none => none
      | none => none
  | fuel + 1, c :: rest =>
    if c.toNat < 32 then none
    else
      match parseJsonStringAux fuel rest with
      | some (cs, rr) => some (c :: cs, rr)
      | none => none

/-- JSON integer literal (a number with a fraction or exponent is outside
the integral model and yields `none`). -/
def parseJsonNumber (l : List Char) : Option (Json × List Char) :=
  let (neg, l1) := match l with
    | '-' :: r => (true, r)
    | _ => (false, l)
  let digits := l1.takeWhile isDigitChar
  let rest := l1.dropWhile isDigitChar
  if digits = [] then none
  else if digits.length > 1 ∧ digits.head? = some '0' then none
  else match rest with
    | '.' :: _ => none
    | 'e' :: _ => none
    | 'E' :: _ => none
    | _ =>
      let n : Nat := digits.foldl (fun acc c => acc * 10 + (c.toNat - '0'.toNat)) 0
      some (.num (if neg then -(n : Int) else (n : Int)), rest)

mutual

/-- Fueled JSON value parser. -/
def parseJsonValue : Nat → List Char → Option (Json × List Char)
  | 0, _ => none
  | fuel + 1, input =>
    match skipJsonWs input with
    | 'n' :: 'u' :: 'l' :: 'l' :: rest => some (.null, rest)
    | 't' :: 'r' :: 'u' :: 'e' :: rest => some (.bool true, rest)
    | 'f' :: 'a' :: 'l' :: 's' :: 'e' :: rest => some (.bool false, rest)
    | '"' :: rest =>
      match parseJsonStringAux (rest.length + 1) rest with
      | some (cs, rr) => some (.str ⟨cs⟩, rr)
      | none => none
    | '[' :: rest =>
      (match skipJsonWs rest with
       | ']' :: rest2 => some (.arr [], rest2)
       | l2 => parseJsonArrayItems fuel l2 [])
    | l =>
      match l with
      | c :: rest =>
        if c = lbraceChar then
          (match skipJsonWs rest with
           | l2 =>
             match l2 with
             | c2 :: rest2 =>
               if c2 = rbraceChar then some (.obj [], rest2)
               else parseJsonObjectItems fuel l2 []
             | [] => none)
        else parseJsonNumber l
      | [] => none

/-- Comma-separated array items (at least one). -/
def parseJsonArrayItems (fuel : Nat) (l : List Char)
    (acc : List Json) : Option (Json × List Char) :=
  match fuel with
  | 0 => none
  | fuel + 1 =>
    match parseJsonValue fuel l with
    | none => none
    | some (v, rest) =>
      match skipJsonWs rest with
      | ',' :: rest2 => parseJsonArrayItems fuel rest2 (acc ++ [v])
      | ']' :: rest2 => some (.arr (acc ++ [v]), rest2)
      | _ => none

/-- Comma-separated object members (at least one). -/
def parseJsonObjectItems (fuel : Nat) (l : List Char)
    (acc : List (String × Json)) : Option (Json × List Char) :=
  match fuel with
  | 0 => none
  | fuel + 1 =>
    match skipJsonWs l with
    | '"' :: rest =>
      match parseJsonStringAux (rest.length + 1) rest with
      | none => none
      | some (key, rest2) =>
        match skipJsonWs rest2 with
        | ':' :: rest3 =>
          match parseJsonValue fuel rest3 with
          | none => none
          | some (v, rest4) =>
            match skipJsonWs rest4 with
            | ',' :: rest5 => parseJsonObjectItems fuel rest5 (acc ++ [(⟨key⟩, v)])
            | c :: rest5 =>
              if c = rbraceChar then some (.obj (acc ++ [(⟨key⟩, v)]), rest5)
              else none
            | [] => none
        | _ => none
    | _ => none

end

/-- `JSON.parse`: the whole string must be one JSON text. -/
def jsonParse (s : String) : Option Json :=
  match parseJsonValue (2 * s.data.length + 4) s.data with
  | some (j, rest) => if skipJsonWs rest = [] then some j else none
  | none => none

/-! ## Framed transport (src/transport.ts, class MCPTransport)

The buffer is modelled as a list of characters; indices and lengths are
code-point counts (JS uses UTF-16 units — the two agree on all text without
astral-plane characters, which is the case everywhere this model is used).
Error events carry a kind tag instead of the interpolated message text. -/

/-- Transport security limits (`TransportConfig` with its defaults). -/
structure TransportConfig where
  maxMessageSize : Nat
  maxBufferSize : Nat
  maxHeaderSize : Nat
deriving DecidableEq, Repr

/-- The default limits (10 MiB / 20 MiB / 8 KiB). -/
def defaultTransportConfig : TransportConfig :=
  { maxMessageSize := 10 * 1024 * 1024
    maxBufferSize := 20 * 1024 * 1024
    maxHeaderSize := 8 * 1024 }

/-- Mutable transport state: the accumulation buffer and the pending
`Content-Length`. -/
structure TransportState where
  buffer : List Char
  contentLength : Option Nat
deriving Repr

/-- Events emitted while processing input. -/
inductive TEvent where
  | message (j : Json)
  | headerTooLarge
  | messageTooLarge
  | invalidContentLength
  | invalidJson
  | bufferTooLarge

/-- First index at which `sub` occurs in `l` (JS `String.indexOf`). -/
def indexOfSub (l sub : List Char) : Option Nat :=
  (List.range (l.length + 1)).find? (fun i => (l.drop i).take sub.length == sub)

/-- The frame-header terminator CRLF CRLF. -/
def crlfcrlf : List Char := ['\r', '\n', '\r', '\n']

/-- ASCII lowercasing of one character (JS case-insensitive regex matching
canonicalizes ASCII only in non-unicode mode). -/
def lowerChar (c : Char) : Char :=
  if 'A' ≤ c ∧ c ≤ 'Z' then Char.ofNat (c.toNat + 32) else c

/-- The literal searched by `/Content-Length: (\d+)/i`. -/
def clMarker : List Char := "content-length: ".data

/-- The first match of `/Content-Length: (\d+)/i` in the header block:
scan left to right for the case-insensitive literal followed by at least
one digit, and return the digit run as a `Nat`.  (`parseInt` of a pure
digit run is nonnegative; the `Infinity` corner for runs of more than 308
digits is not modelled — such a value is over every message-size limit and
is rejected either way.) -/
def findContentLength (header : List Char) : Option Nat :=
  (List.range (header.length + 1)).findSome? (fun i =>
    let tail := header.drop i
    if (tail.take clMarker.length).map lowerChar == clMarker then
      let digits := (tail.drop clMarker.length).takeWhile isDigitChar
      if digits = [] then none
      else some (digits.foldl (fun acc c => acc * 10 + (c.toNat - '0'.toNat)) 0)
    else none)

/-- JS whitespace: the `WhiteSpace` and `LineTerminator` productions, which
is both the set trimmed by `String.prototype.trim` and the set matched by
the regex class `\s`. -/
def isJsTrimWs (c : Char) : Bool :=
  c == ' ' || c == '\t' || c == '\n' || c == '\r' ||
  c == Char.ofNat 0x0B || c == Char.ofNat 0x0C || c == Char.ofNat 0xA0 ||
  c == Char.ofNat 0xFEFF || c == Char.ofNat 0x2028 || c == Char.ofNat 0x2029 ||
  c == Char.ofNat 0x1680 ||
  (decide (0x2000 ≤ c.toNat) && decide (c.toNat ≤ 0x200A)) ||
  c == Char.ofNat 0x202F || c == Char.ofNat 0x205F || c == Char.ofNat 0x3000

/-- JS `String.prototype.trim`. -/
def jsTrim (l : List Char) : List Char :=
  ((l.dropWhile isJsTrimWs).reverse.dropWhile isJsTrimWs).reverse

/-- `MCPTransport.processBuffer` translated from the source: the
`while (true)` loop becomes fueled recursion (every iteration either
returns or strictly shrinks the buffer, so the fuel chosen by the callers
below is never exhausted). -/
def processBuffer (cfg : TransportConfig) :
    Nat → TransportState → List TEvent × TransportState
  | 0, st => ([], st)
  | fuel + 1, st =>
    match st.contentLength with
    | none =>
      match indexOfSub st.buffer crlfcrlf with
      | none =>
        if st.buffer.length > cfg.maxHeaderSize then
          ([.headerTooLarge], { buffer := [], contentLength := none })
        else ([], st)
      | some headerEnd =>
        let header := st.buffer.take headerEnd
        match findContentLength header with
        | none =>
          -- no Content-Length: try newline-delimited JSON
          match indexOfSub st.buffer ['\n'] with
          | none => ([], st)
          | some nl =>
            let line := jsTrim (st.buffer.take nl)
            let st2 : TransportState :=
              { buffer := st.buffer.drop (nl + 1), contentLength := none }
            if line.length > cfg.maxMessageSize then
              let (evs, st3) := processBuffer cfg fuel st2
              (.messageTooLarge :: evs, st3)
            else if line ≠ [] then
              match jsonParse ⟨line⟩ with
              | some j =>
                let (evs, st3) := processBuffer cfg fuel st2
                (.message j :: evs, st3)
              | none => processBuffer cfg fuel st2
            else processBuffer cfg fuel st2
        | some cl =>
          if cl > cfg.maxMessageSize then
            let afterHeader := st.buffer.drop (headerEnd + 4)
            let st2 : TransportState :=
              { buffer :=
                  if afterHeader.length ≥ cl then afterHeader.drop cl else []
                contentLength := none }
            let (evs, st3) := processBuffer cfg fuel st2
            (.messageTooLarge :: evs, st3)
          else
            processBuffer cfg fuel
              { buffer := st.buffer.drop (headerEnd + 4), contentLength := some cl }
    | some cl =>
      if st.buffer.length < cl then ([], st)
      else
        let content := st.buffer.take cl
        let st2 : TransportState :=
          { buffer := st.buffer.drop cl, contentLength := none }
        match jsonParse ⟨content⟩ with
        | some j =>
          let (evs, st3) := processBuffer cfg fuel st2
          (.message j :: evs, st3)
        | none =>
          let (evs, st3) := processBuffer cfg fuel st2
          (.invalidJson :: evs, st3)

/-- The `data` handler: buffer-size check, append, process. -/
def onData (cfg : TransportConfig) (st : TransportState) (chunk : String) :
    List TEvent × TransportState :=
  if st.buffer.length + chunk.data.length > cfg.maxBufferSize then
    ([.bufferTooLarge], { buffer := [], contentLength := none })
  else
    let st1 : TransportState :=
      { st with buffer := st.buffer ++ chunk.data }
    processBuffer cfg (st1.buffer.length + 1) st1

/-- The fresh transport state. -/
def initialTransportState : TransportState :=
  { buffer := [], contentLength := none }

/-- C5 counterexample.  The stream `\x7b"a":1\x7d\n` is a complete
newline-terminated JSON text with no `Content-Length` header, yet the
transport emits nothing: `processBuffer` only tries line-delimited framing
after finding a CRLF CRLF sequence, and this stream has none, so the data
just sits in the buffer. -/
theorem transport_line_framing_counterexample :
    jsonParse "\x7b\"a\":1\x7d" = some (Json.obj [("a", Json.num 1)]) ∧
    onData defaultTransportConfig initialTransportState "\x7b\"a\":1\x7d\n" =
      ([], { buffer := "\x7b\"a\":1\x7d\n".data, contentLength := none }) := by
  constructor
  · rfl
  · rfl

/-- C5 amended.  Line-delimited framing is only attempted once the buffer
contains a CRLF CRLF sequence whose preceding header block has no
`Content-Length`: (i) with no pending length and no CRLF CRLF in a buffer
within the header-size limit, processing emits nothing and leaves the
state untouched, for any fuel; (ii) once the same JSON line is followed by
CRLF CRLF, it is parsed and emitted as a message. -/
theorem transport_line_framing_amended :
    (∀ (cfg : TransportConfig) (st : TransportState) (fuel : Nat),
      st.contentLength = none →
      indexOfSub st.buffer crlfcrlf = none →
      st.buffer.length ≤ cfg.maxHeaderSize →
      processBuffer cfg fuel st = ([], st)) ∧
    onData defaultTransportConfig initialTransportState
        "\x7b\"a\":1\x7d\n\r\n\r\n" =
      ([.message (Json.obj [("a", Json.num 1)])],
       { buffer := ['\r', '\n'], contentLength := none }) := by
  constructor
  · intro cfg st fuel h1 h2 h3
    match fuel with
    | 0 => rfl
    | fuel + 1 =>
      unfold processBuffer
      rw [h1, h2]
      simp only [if_neg (by omega : ¬ st.buffer.length > cfg.maxHeaderSize)]
  · rfl

/-- Witness for `transport_line_framing_amended`: the counterexample stream
satisfies the no-CRLFCRLF hypotheses, so processing it with any fuel leaves
it buffered. -/
theorem transport_line_framing_amended_witness :
    processBuffer defaultTransportConfig 9
        { buffer := "\x7b\"a\":1\x7d\n".data, contentLength := none } =
      ([], { buffer := "\x7b\"a\":1\x7d\n".data, contentLength := none }) := by
  exact transport_line_framing_amended.1 defaultTransportConfig
    { buffer := "\x7b\"a\":1\x7d\n".data, contentLength := none } 9
    rfl (by decide) (by decide)

/-! ## Byte-level string primitives (UTF-8, UTF-16 length) -/

/-- UTF-8 encoding of one scalar value (RFC 3629). -/
def utf8EncodeChar (c : Char) : List Nat :=
  if c.toNat < 0x80 then [c.toNat]
  else if c.toNat < 0x800 then [0xC0 + c.toNat / 64, 0x80 + c.toNat % 64]
  else if c.toNat < 0x10000 then
    [0xE0 + c.toNat / 4096, 0x80 + c.toNat / 64 % 64, 0x80 + c.toNat % 64]
  else
    [0xF0 + c.toNat / 262144, 0x80 + c.toNat / 4096 % 64, 0x80 + c.toNat / 64 % 64,
     0x80 + c.toNat % 64]

/-- UTF-8 bytes of a char list. -/
def utf8EncodeList (l : List Char) : List Nat :=
  l.flatMap utf8EncodeChar

/-- UTF-8 bytes of a string (`TextEncoder`, `Buffer.from(s, 'utf8')`). -/
def utf8Encode (s : String) : List Nat :=
  utf8EncodeList s.data

/-- UTF-16 code-unit count of a char list. -/
def utf16LenList (l : List Char) : Nat :=
  (l.map (fun c => if c.toNat < 0x10000 then 1 else 2)).sum

/-- JS `String.prototype.length` counts UTF-16 code units. -/
def utf16Length (s : String) : Nat :=
  utf16LenList s.data

/-! ## SHA-256 and HMAC-SHA256 (node:crypto / WebCrypto model)

A complete executable SHA-256 over byte lists, with 32-bit words as `Nat`
reduced mod `2^32`. -/

/-- Truncate to a 32-bit word. -/
def w32 (n : Nat) : Nat := n % 4294967296

/-- 32-bit right rotation. -/
def rotr32 (b n : Nat) : Nat :=
  w32 ((n / 2 ^ b) + (n % 2 ^ b) * 2 ^ (32 - b))

/-- 32-bit right shift. -/
def shr32 (b n : Nat) : Nat := n / 2 ^ b

/-- The eight working variables of the SHA-256 compression function. -/
structure Sha256State where
  a : Nat
  b : Nat
  c : Nat
  d : Nat
  e : Nat
  f : Nat
  g : Nat
  h : Nat

/-- SHA-256 initial hash value. -/
def sha256InitState : Sha256State :=
  { a := 0x6a09e667, b := 0xbb67ae85, c := 0x3c6ef372, d := 0xa54ff53a
    e := 0x510e527f, f := 0x9b05688c, g := 0x1f83d9ab, h := 0x5be0cd19 }

/-- SHA-256 round constants (FIPS 180-4, written in decimal). -/
def sha256K : List Nat :=
  [1116352408, 1899447441, 3049323471, 3921009573, 961987163, 1508970993,
   2453635748, 2870763221, 3624381080, 310598401, 607225278, 1426881987,
   1925078388, 2162078206, 2614888103, 3248222580, 3835390401, 4022224774,
   264347078, 604807628, 770255983, 1249150122, 1555081692, 1996064986,
   2554220882, 2821834349, 2952996808, 3210313671, 3336571891, 3584528711,
   113926993, 338241895, 666307205, 773529912, 1294757372, 1396182291,
   1695183700, 1986661051, 2177026350, 2456956037, 2730485921, 2820302411,
   3259730800, 3345764771, 3516065817, 3600352804, 4094571909, 275423344,
   430227734, 506948616, 659060556, 883997877, 958139571, 1322822218,
   1537002063, 1747873779, 1955562222, 2024104815, 2227730452, 2361852424,
   2428436474, 2756734187, 3204031479, 3329325298]

/-- Bitwise XOR via `Nat.xor`. -/
def nxor (a b : Nat) : Nat := a ^^^ b

/-- Bitwise AND. -/
def nand2 (a b : Nat) : Nat := a &&& b

/-- Bitwise NOT on 32 bits. -/
def nnot32 (a : Nat) : Nat := 4294967295 - w32 a

/-- One round of the compression function. -/
def sha256Round (st : Sha256State) (kw : Nat × Nat) : Sha256State :=
  let s1 := nxor (nxor (rotr32 6 st.e) (rotr32 11 st.e)) (rotr32 25 st.e)
  let ch := nxor (nand2 st.e st.f) (nand2 (nnot32 st.e) st.g)
  let temp1 := w32 (st.h + s1 + ch + kw.1 + kw.2)
  let s0 := nxor (nxor (rotr32 2 st.a) (rotr32 13 st.a)) (rotr32 22 st.a)
  let maj := nxor (nxor (nand2 st.a st.b) (nand2 st.a st.c)) (nand2 st.b st.c)
  let temp2 := w32 (s0 + maj)
  { a := w32 (temp1 + temp2), b := st.a, c := st.b, d := st.c
    e := w32 (st.d + temp1), f := st.e, g := st.f, h := st.g }

/-- Split a list into chunks of `n` (fueled; fuel is the list length). -/
def chunksOf (n : Nat) : Nat → List Nat → List (List Nat)
  | _, [] => []
  | 0, l => [l]
  | fuel + 1, l => l.take n :: chunksOf n fuel (l.drop n)

/-- Big-endian bytes (`count` of them) of a number. -/
def beBytes (count n : Nat) : List Nat :=
  (List.range count).map (fun i => n / 2 ^ (8 * (count - 1 - i)) % 256)

/-- Big-endian 32-bit word from (up to) four bytes. -/
def wordOfBytes (bs : List Nat) : Nat :=
  bs.foldl (fun acc b => acc * 256 + b) 0

/-- Message schedule: 16 block words extended to 64. -/
def sha256Schedule (ws : List Nat) : List Nat :=
  (List.range 48).foldl
    (fun acc _ =>
      let n := acc.length
      let w15 := acc.getD (n - 15) 0
      let w2 := acc.getD (n - 2) 0
      let s0 := nxor (nxor (rotr32 7 w15) (rotr32 18 w15)) (shr32 3 w15)
      let s1 := nxor (nxor (rotr32 17 w2) (rotr32 19 w2)) (shr32 10 w2)
      acc ++ [w32 (acc.getD (n - 16) 0 + s0 + acc.getD (n - 7) 0 + s1)])
    ws

/-- Compress one 64-byte block into the running hash. -/
def sha256Block (hs : Sha256State) (block : List Nat) : Sha256State :=
  let ws := sha256Schedule ((chunksOf 4 block.length block).map wordOfBytes)
  let st := (sha256K.zip ws).foldl sha256Round hs
  { a := w32 (hs.a + st.a), b := w32 (hs.b + st.b), c := w32 (hs.c + st.c)
    d := w32 (hs.d + st.d), e := w32 (hs.e + st.e), f := w32 (hs.f + st.f)
    g := w32 (hs.g + st.g), h := w32 (hs.h + st.h) }

/-- SHA-256 padding: `0x80`, zeros to 56 mod 64, 8-byte bit length. -/
def sha256Pad (msg : List Nat) : List Nat :=
  msg ++ 0x80 :: List.replicate ((119 - msg.length % 64) % 64) 0 ++
    beBytes 8 (msg.length * 8)

/-- SHA-256 digest: 32 bytes. -/
def sha256 (msg : List Nat) : List Nat :=
  let padded := sha256Pad msg
  let hs := (chunksOf 64 padded.length padded).foldl sha256Block sha256InitState
  beBytes 4 hs.a ++ beBytes 4 hs.b ++ beBytes 4 hs.c ++ beBytes 4 hs.d ++
    beBytes 4 hs.e ++ beBytes 4 hs.f ++ beBytes 4 hs.g ++ beBytes 4 hs.h

/-- One lowercase hex digit. -/
def hexDigit (n : Nat) : Char :=
  if n < 10 then Char.ofNat ('0'.toNat + n) else Char.ofNat ('a'.toNat + (n - 10))

/-- Two lowercase hex digits of a byte
(`b.toString(16).padStart(2, '0')`). -/
def byteHex (b : Nat) : List Char :=
  [hexDigit (b / 16 % 16), hexDigit (b % 16)]

/-- Lowercase hex of a byte list (`digest('hex')`). -/
def bytesHex (bs : List Nat) : String :=
  ⟨bs.flatMap byteHex⟩

/-- `createHash('sha256').update(s).digest('hex')`. -/
def sha256Hex (s : String) : String :=
  bytesHex (sha256 (utf8Encode s))

/-- HMAC-SHA256 over UTF-8 encoded key and message, hex output
(`crypto.subtle.sign('HMAC', ...)` with a raw key). -/
def hmacSha256 (key msg : List Nat) : List Nat :=
  let k0 := if key.length > 64 then sha256 key else key
  let k1 := k0 ++ List.replicate (64 - k0.length) 0
  let ipad := k1.map (fun b => nxor b 0x36)
  let opad := k1.map (fun b => nxor b 0x5c)
  sha256 (opad ++ sha256 (ipad ++ msg))

/-- Hex HMAC-SHA256 of strings. -/
def hmacSha256Hex (key msg : String) : String :=
  bytesHex (hmacSha256 (utf8Encode key) (utf8Encode msg))

/-! ## Canonical JSON serialization and tool hashing
(src/proxy/tool-shadowing.ts: sortObject, hashSchema, hashDescription,
computeCombinedHash) -/

/-- UTF-16 code units of a string (JS default `Array.sort` on strings
compares these lexicographically). -/
def utf16Units (s : String) : List Nat :=
  s.data.flatMap (fun c =>
    if c.toNat < 0x10000 then [c.toNat]
    else [0xD800 + (c.toNat - 0x10000) / 1024, 0xDC00 + (c.toNat - 0x10000) % 1024])

/-- Strict lexicographic order on unit lists. -/
def lexLt : List Nat → List Nat → Bool
  | [], [] => false
  | [], _ :: _ => true
  | _ :: _, [] => false
  | x :: xs, y :: ys => x < y || (x == y && lexLt xs ys)

/-- JS string `<` (UTF-16 lexicographic). -/
def jsStrLt (a b : String) : Bool :=
  lexLt (utf16Units a) (utf16Units b)

/-- Insert a pair into a key-sorted list (ascending by `jsStrLt`). -/
def insertPairByKey (p : String × JSValue) :
    List (String × JSValue) → List (String × JSValue)
  | [] => [p]
  | q :: qs =>
    if jsStrLt q.1 p.1 then q :: insertPairByKey p qs else p :: q :: qs

/-- `Object.keys(obj).sort()` with rebuilt values: sort pairs by key. -/
def sortPairs (l : List (String × JSValue)) : List (String × JSValue) :=
  l.foldr insertPairByKey []

/-- `parseInt(s, 10)` of a digit run: the numeric value of a decimal
digit list. -/
def decToNat (l : List Char) : Nat :=
  l.foldl (fun acc c => acc * 10 + (c.toNat - '0'.toNat)) 0

/-- An ECMA-262 array index: a canonical decimal integer string (digits
only, no leading zero except `"0"` itself) whose value is at most
2^32 - 2.  Such own-property keys of an ordinary object enumerate before
all other string keys, in ascending numeric order. -/
def isArrayIndex (s : String) : Bool :=
  match s.data with
  | [] => false
  | c :: rest =>
    List.all (c :: rest) isDigitChar &&
    (c != '0' || rest.isEmpty) &&
    decide (decToNat (c :: rest) ≤ 4294967294)

/-- Insert a pair into a list sorted ascending by numeric key value. -/
def insertPairByIndex (p : String × JSValue) :
    List (String × JSValue) → List (String × JSValue)
  | [] => [p]
  | q :: qs =>
    if decToNat q.1.data < decToNat p.1.data then q :: insertPairByIndex p qs
    else p :: q :: qs

/-- Insertion sort by numeric key value. -/
def sortPairsByIndex : List (String × JSValue) → List (String × JSValue)
  | [] => []
  | p :: ps => insertPairByIndex p (sortPairsByIndex ps)

/-- Modelled from the runtime: the own-property enumeration order of a JS
object built by inserting the listed keys in list order (ECMA-262
`OrdinaryOwnPropertyKeys`, followed by `JSON.stringify`): array-index
keys first in ascending numeric order, then the remaining keys in
insertion order. -/
def jsOwnOrder (props : List (String × JSValue)) : List (String × JSValue) :=
  sortPairsByIndex (props.filter (fun p => isArrayIndex p.1)) ++
    props.filter (fun p => !(isArrayIndex p.1))

mutual

/-- `ToolShadowingDetector.sortObject`: `Object.keys(obj).sort()` and a
rebuild of the object in that key order, recursing into values; arrays
keep their order.  (Sorting only inspects keys, so recursing first and
then sorting the resulting pairs is the identical function.)  The rebuilt
object's own-property order — which `JSON.stringify` follows — is not the
insertion order when keys are array indices: those enumerate first,
numerically, hence the `jsOwnOrder` step. -/
def sortObject : JSValue → JSValue
  | .arr items => .arr (sortObjectList items)
  | .obj props => .obj (jsOwnOrder (sortPairs (sortObjectProps props)))
  | v => v

/-- `sortObject` mapped over array elements. -/
def sortObjectList : List JSValue → List JSValue
  | [] => []
  | x :: xs => sortObject x :: sortObjectList xs

/-- `sortObject` mapped over property values. -/
def sortObjectProps : List (String × JSValue) → List (String × JSValue)
  | [] => []
  | (k, v) :: xs => (k, sortObject v) :: sortObjectProps xs

end

mutual

/-- The canonicalization as the spec words it: mapping keys sorted
lexicographically at every nesting level, arrays left in order.  Written
from the spec sentence, to be compared with `sortObject`. -/
def specSortObject : JSValue → JSValue
  | .arr items => .arr (specSortObjectList items)
  | .obj props => .obj (sortPairs (specSortObjectProps props))
  | v => v

/-- `specSortObject` mapped over array elements. -/
def specSortObjectList : List JSValue → List JSValue
  | [] => []
  | x :: xs => specSortObject x :: specSortObjectList xs

/-- `specSortObject` mapped over property values. -/
def specSortObjectProps : List (String × JSValue) → List (String × JSValue)
  | [] => []
  | (k, v) :: xs => (k, specSortObject v) :: specSortObjectProps xs

end

/-- JSON string escaping of one char as `JSON.stringify` does. -/
def jsonQuoteChar (c : Char) : List Char :=
  if c = '"' then ['\\', '"']
  else if c = '\\' then ['\\', '\\']
  else if c.toNat = 8 then ['\\', 'b']
  else if c = '\t' then ['\\', 't']
  else if c = '\n' then ['\\', 'n']
  else if c.toNat = 12 then ['\\', 'f']
  else if c = '\r' then ['\\', 'r']
  else if c.toNat < 32 then
    '\\' :: 'u' :: '0' :: '0' :: byteHex c.toNat
  else [c]

/-- JSON string literal. -/
def jsonQuote (s : String) : List Char :=
  '"' :: s.data.flatMap jsonQuoteChar ++ ['"']

mutual

/-- `JSON.stringify` (compact).  Properties with `undefined` values are
dropped and `undefined` array elements serialize as `null`, as in JS; a
top-level `undefined` is unreachable from the hashing call sites (the
source guards with `?? {}` / `?? ''`). -/
def stringifyJS : JSValue → List Char
  | .undef => "null".data
  | .null => "null".data
  | .bool true => "true".data
  | .bool false => "false".data
  | .num n => (toString n).data
  | .str s => jsonQuote s
  | .arr items => '[' :: stringifyItems items ++ [']']
  | .obj props =>
    match stringifyProps props with
    | [] => [lbraceChar, rbraceChar]
    | body => lbraceChar :: body ++ [rbraceChar]

/-- Comma-joined array elements. -/
def stringifyItems : List JSValue → List Char
  | [] => []
  | [x] => stringifyJS x
  | x :: xs => stringifyJS x ++ ',' :: stringifyItems xs

/-- Comma-joined object members, dropping `undefined` values. -/
def stringifyProps : List (String × JSValue) → List Char
  | [] => []
  | (_, .undef) :: xs => stringifyProps xs
  | (k, v) :: xs =>
    let entry := jsonQuote k ++ ':' :: stringifyJS v
    match stringifyProps xs with
    | [] => entry
    | rest => entry ++ ',' :: rest

end

/-- A tool descriptor as typed in the source (`interface Tool`). -/
structure ToolDesc where
  name : String
  description : Option String
  inputSchema : Option JSValue

/-- `tool.inputSchema ?? {}` (nullish coalescing). -/
def schemaOrEmpty : Option JSValue → JSValue
  | some .null => .obj []
  | some .undef => .obj []
  | some v => v
  | none => .obj []

/-- `ToolShadowingDetector.hashSchema`: canonical serialization of the
key-sorted schema, SHA-256, hex. -/
def hashSchema (t : ToolDesc) : String :=
  sha256Hex ⟨stringifyJS (sortObject (schemaOrEmpty t.inputSchema))⟩

/-- `ToolShadowingDetector.hashDescription`. -/
def hashDescription (t : ToolDesc) : String :=
  sha256Hex (t.description.getD "")

/-- `ToolShadowingDetector.computeCombinedHash`. -/
def computeCombinedHash (t : ToolDesc) : String :=
  sha256Hex (t.name ++ ":" ++ hashSchema t ++ ":" ++ hashDescription t)

/-- The hash formula as the spec states it:
`SHA-256(name || ":" || SHA-256(canonical(schema)) || ":" ||
SHA-256(description))`, with `canonical` serializing mappings with keys
sorted lexicographically at every nesting level and arrays in order.
Written from the spec sentence, to be compared with the code. -/
def specCombinedHash (t : ToolDesc) : String :=
  sha256Hex (t.name ++ ":" ++
    sha256Hex ⟨stringifyJS (specSortObject (schemaOrEmpty t.inputSchema))⟩ ++ ":" ++
    sha256Hex (t.description.getD ""))

/-! ## Tool validation and registration
(src/proxy/tool-shadowing.ts: validateTool, getObjectDepth,
registerServerTools) -/

/-- `signature.startsWith('sha256=') ? signature.slice(7) : signature`. -/
def stripSha256Prefix (sig : String) : String :=
  if sig.data.take 7 == "sha256=".data then ⟨sig.data.drop 7⟩ else sig

/-- `verifyWebhookSignature` translated from the source.  `timingSafeEqual`
is byte-list equality on equal-length buffers; on a length mismatch it
throws, which the surrounding `catch` turns into `false` (the expected
buffer is always 64 bytes, so that branch is in fact unreachable). -/
def verifyWebhookSignature (body : String) (signature : Option String)
    (secret : String) : Bool :=
  match signature with
  | none => false
  | some sig =>
    if sig == "" || secret == "" then false
    else
      let providedSig := stripSha256Prefix sig
      let expectedSig := hmacSha256Hex secret body
      let expectedBuffer := utf8Encode expectedSig
      let providedBytes := utf8Encode providedSig
      let providedBuffer :=
        providedBytes.take 64 ++
          List.replicate (64 - (providedBytes.take 64).length) 0
      let correctLength := utf16Length providedSig == 64
      if providedBuffer.length ≠ expectedBuffer.length then false
      else correctLength && providedBuffer == expectedBuffer

/-- `WebhookVerificationResult` from the source. -/
structure WebhookVerificationResult where
  valid : Bool
  reason : Option String
deriving DecidableEq, Repr

/-- `verifyWebhookSignatureDetailed` translated from the source. -/
def verifyWebhookSignatureDetailed (body : String) (signature : Option String)
    (secret : String) : WebhookVerificationResult :=
  match signature with
  | none => ⟨false, some "Missing signature header"⟩
  | some sig =>
    if sig == "" then ⟨false, some "Missing signature header"⟩
    else if secret == "" then ⟨false, some "Missing webhook secret"⟩
    else if !(sig.data.take 7 == "sha256=".data) then
      ⟨false, some "Invalid signature format (expected sha256=...)"⟩
    else if verifyWebhookSignature body (some sig) secret then ⟨true, none⟩
    else ⟨false, some "Signature mismatch"⟩

/-! Supporting lemmas: hex digests are nonzero ASCII, UTF-8 is transparent
on ASCII, and an ASCII byte string determines its preimage. -/

/-- Hex digits are nonzero ASCII. -/
theorem hexDigit_facts : ∀ m, m < 16 → 0 < (hexDigit m).toNat ∧ (hexDigit m).toNat < 128 := by
  decide

/-- Every char of a byte's hex rendering is nonzero ASCII. -/
theorem mem_byteHex_facts (b : Nat) :
    ∀ c ∈ byteHex b, 0 < c.toNat ∧ c.toNat < 128 := by
  intro c hc
  simp only [byteHex, List.mem_cons, List.mem_singleton, List.not_mem_nil] at hc
  rcases hc with h | h | h
  · exact h ▸ hexDigit_facts _ (Nat.mod_lt _ (by omega))
  · exact h ▸ hexDigit_facts _ (Nat.mod_lt _ (by omega))
  · cases h

/-- Every char of a hex digest is nonzero ASCII. -/
theorem mem_bytesHex_facts (bs : List Nat) :
    ∀ c ∈ (bytesHex bs).data, 0 < c.toNat ∧ c.toNat < 128 := by
  intro c hc
  simp only [bytesHex, List.mem_flatMap] at hc
  rcases hc with ⟨b, _, hcb⟩
  exact mem_byteHex_facts b c hcb

/-- Length of a hex digest: two chars per byte. -/
theorem bytesHex_length (bs : List Nat) :
    (bytesHex bs).data.length = 2 * bs.length := by
  show (bs.flatMap byteHex).length = 2 * bs.length
  induction bs with
  | nil => rfl
  | cons b rest ih =>
    rw [List.flatMap_cons, List.length_append, ih,
      show (byteHex b).length = 2 from rfl, List.length_cons]
    omega

/-- SHA-256 digests are 32 bytes. -/
theorem sha256_length (msg : List Nat) : (sha256 msg).length = 32 := by
  simp [sha256, beBytes]

/-- UTF-8 leaves an all-ASCII char list byte-transparent. -/
theorem utf8EncodeList_ascii (l : List Char) (h : ∀ c ∈ l, c.toNat < 128) :
    utf8EncodeList l = l.map Char.toNat := by
  induction l with
  | nil => rfl
  | cons c rest ih =>
    have hc : c.toNat < 128 := h c (by simp)
    simp only [utf8EncodeList, List.flatMap_cons, List.map_cons]
    rw [show utf8EncodeChar c = [c.toNat] by simp [utf8EncodeChar, if_pos hc]]
    simp only [List.singleton_append, List.cons.injEq, true_and]
    exact ih (fun d hd => h d (by simp [hd]))

/-- All-ASCII char lists have one UTF-16 unit per char. -/
theorem utf16LenList_ascii (l : List Char) (h : ∀ c ∈ l, c.toNat < 128) :
    utf16LenList l = l.length := by
  induction l with
  | nil => rfl
  | cons c rest ih =>
    have hc : c.toNat < 128 := h c (by simp)
    have ih2 := ih (fun d hd => h d (by simp [hd]))
    simp only [utf16LenList, List.map_cons, List.sum_cons, List.length_cons] at ih2 ⊢
    rw [if_pos (by omega : c.toNat < 0x10000), ih2]
    omega

/-- Every char contributes at least one UTF-16 unit. -/
theorem utf16LenList_ge_length (l : List Char) : l.length ≤ utf16LenList l := by
  induction l with
  | nil => simp [utf16LenList]
  | cons c rest ih =>
    simp only [utf16LenList, List.map_cons, List.sum_cons, List.length_cons] at ih ⊢
    split <;> omega

/-- The first UTF-8 byte of a non-ASCII scalar is at least 0x80, and an
ASCII scalar encodes as its own single byte. -/
theorem utf8EncodeChar_head (c : Char) :
    (c.toNat < 128 → utf8EncodeChar c = [c.toNat]) ∧
    (128 ≤ c.toNat → ∃ b rest, utf8EncodeChar c = b :: rest ∧ 128 ≤ b) := by
  constructor
  · intro h
    simp [utf8EncodeChar, if_pos h]
  · intro h
    unfold utf8EncodeChar
    split_ifs with h1 h2 h3
    · omega
    · exact ⟨_, _, rfl, by omega⟩
    · exact ⟨_, _, rfl, by omega⟩
    · exact ⟨_, _, rfl, by omega⟩

/-- Characters are determined by their code points. -/
theorem char_toNat_inj {c d : Char} (h : c.toNat = d.toNat) : c = d :=
  Char.ext (UInt32.ext (by simpa [Char.toNat] using h))

/-- If a UTF-8 stream starts with the bytes of an all-ASCII `target`, the
source starts with `target` itself. -/
theorem utf8_ascii_prefix (target : List Char) :
    ∀ (l : List Char) (rest : List Nat),
      (∀ c ∈ target, c.toNat < 128) →
      utf8EncodeList l = target.map Char.toNat ++ rest →
      ∃ l2, l = target ++ l2 ∧ utf8EncodeList l2 = rest := by
  induction target with
  | nil =>
    intro l rest _ h
    exact ⟨l, rfl, by simpa using h⟩
  | cons t ts ih =>
    intro l rest hascii h
    have ht : t.toNat < 128 := hascii t (by simp)
    cases l with
    | nil =>
      exfalso
      have : ([] : List Nat) = t.toNat :: (ts.map Char.toNat ++ rest) := by
        simpa [utf8EncodeList] using h
      cases this
    | cons c l2 =>
      have hsplit : utf8EncodeChar c ++ utf8EncodeList l2 =
          t.toNat :: (ts.map Char.toNat ++ rest) := by
        simpa [utf8EncodeList] using h
      by_cases hc : c.toNat < 128
      · rw [(utf8EncodeChar_head c).1 hc] at hsplit
        simp only [List.singleton_append, List.cons.injEq] at hsplit
        have hct : c = t := char_toNat_inj (by omega)
        rcases ih l2 rest (fun d hd => hascii d (by simp [hd])) hsplit.2 with
          ⟨l3, hl3, hrest⟩
        exact ⟨l3, by simp [hct, hl3], hrest⟩
      · exfalso
        rcases (utf8EncodeChar_head c).2 (by omega) with ⟨b, brest, hb, hb128⟩
        rw [hb] at hsplit
        simp only [List.cons_append, List.cons.injEq] at hsplit
        omega

/-- Concatenation is additive in UTF-16 units. -/
theorem utf16LenList_append (a b : List Char) :
    utf16LenList (a ++ b) = utf16LenList a + utf16LenList b := by
  simp [utf16LenList]

/-- Strings with equal character lists are equal. -/
theorem string_data_ext {s t : String} (h : s.data = t.data) : s = t := by
  cases s
  cases t
  exact congrArg String.mk h

/-- If the padded 64-byte comparison buffer of `s` equals the UTF-8 bytes
of a 64-char digest of nonzero ASCII characters, and `s` has 64 UTF-16
units, then `s` is that digest.  This is the timing-safe comparison read
backwards. -/
theorem paddedBuffer_inversion (s E : String)
    (hEascii : ∀ c ∈ E.data, 0 < c.toNat ∧ c.toNat < 128)
    (hElen : E.data.length = 64)
    (hlen : utf16Length s = 64)
    (hbuf : (utf8Encode s).take 64 ++
        List.replicate (64 - ((utf8Encode s).take 64).length) 0 = utf8Encode E) :
    s = E := by
  have hEutf8 : utf8Encode E = E.data.map Char.toNat :=
    utf8EncodeList_ascii _ (fun c hc => (hEascii c hc).2)
  by_cases hge : 64 ≤ (utf8Encode s).length
  · have htake : ((utf8Encode s).take 64).length = 64 := by
      rw [List.length_take]
      omega
    rw [htake] at hbuf
    simp only [Nat.sub_self, List.replicate_zero, List.append_nil] at hbuf
    have hsplit : utf8Encode s =
        E.data.map Char.toNat ++ (utf8Encode s).drop 64 := by
      rw [← hEutf8, ← hbuf]
      exact (List.take_append_drop 64 (utf8Encode s)).symm
    rcases utf8_ascii_prefix E.data s.data ((utf8Encode s).drop 64)
        (fun c hc => (hEascii c hc).2) hsplit with ⟨l2, hsdata, _⟩
    have hlen2 : utf16LenList s.data = 64 := hlen
    rw [hsdata, utf16LenList_append,
      utf16LenList_ascii E.data (fun c hc => (hEascii c hc).2), hElen] at hlen2
    have : l2.length = 0 := by
      have := utf16LenList_ge_length l2
      omega
    rw [List.length_eq_zero] at this
    exact string_data_ext (by rw [hsdata, this, List.append_nil])
  · exfalso
    have hz : (0 : Nat) ∈ (utf8Encode s).take 64 ++
        List.replicate (64 - ((utf8Encode s).take 64).length) 0 := by
      apply List.mem_append_right
      apply List.mem_replicate.mpr
      refine ⟨?_, rfl⟩
      rw [List.length_take]
      omega
    rw [hbuf, hEutf8] at hz
    rcases List.mem_map.mp hz with ⟨c, hc, hc0⟩
    have := (hEascii c hc).1
    omega

/-- The expected digest: 64 chars, all nonzero ASCII. -/
theorem hmacHex_facts (k m : String) :
    (∀ c ∈ (hmacSha256Hex k m).data, 0 < c.toNat ∧ c.toNat < 128) ∧
    (hmacSha256Hex k m).data.length = 64 := by
  constructor
  · exact mem_bytesHex_facts _
  · rw [show hmacSha256Hex k m = bytesHex (hmacSha256 (utf8Encode k) (utf8Encode m)) from rfl,
      bytesHex_length]
    have : (hmacSha256 (utf8Encode k) (utf8Encode m)).length = 32 := by
      simp only [hmacSha256]
      exact sha256_length _
    omega

/-- C7.  `verifyWebhookSignature` accepts exactly `sha256=` plus the
lowercase hex HMAC-SHA256 of the body under the secret: (i) the correct
header verifies; (ii) any provided digest different from the expected hex
digest is rejected; (iii) a digest whose length is not 64 is rejected;
(iv) a missing signature, empty signature or empty secret is rejected; and
(v) the detailed variant reports missing signature header, missing secret,
invalid format, and signature mismatch. -/
theorem verifyWebhookSignature_contract :
    (∀ body secret : String, secret ≠ "" →
      verifyWebhookSignature body
        (some ("sha256=" ++ hmacSha256Hex secret body)) secret = true) ∧
    (∀ body sig secret : String,
      stripSha256Prefix sig ≠ hmacSha256Hex secret body →
      verifyWebhookSignature body (some sig) secret = false) ∧
    (∀ body sig secret : String,
      utf16Length (stripSha256Prefix sig) ≠ 64 →
      verifyWebhookSignature body (some sig) secret = false) ∧
    (∀ body secret : String, verifyWebhookSignature body none secret = false) ∧
    (∀ body sig : String, verifyWebhookSignature body (some sig) "" = false) ∧
    (∀ body secret : String, verifyWebhookSignature body (some "") secret = false) ∧
    (∀ body secret : String,
      verifyWebhookSignatureDetailed body none secret =
        ⟨false, some "Missing signature header"⟩) ∧
    (∀ body sig : String, sig ≠ "" →
      verifyWebhookSignatureDetailed body (some sig) "" =
        ⟨false, some "Missing webhook secret"⟩) ∧
    (∀ body sig secret : String, sig ≠ "" → secret ≠ "" →
      ¬ (sig.data.take 7 = "sha256=".data) →
      verifyWebhookSignatureDetailed body (some sig) secret =
        ⟨false, some "Invalid signature format (expected sha256=...)"⟩) ∧
    (∀ body sig secret : String, sig ≠ "" → secret ≠ "" →
      sig.data.take 7 = "sha256=".data →
      verifyWebhookSignatureDetailed body (some sig) secret =
        (if verifyWebhookSignature body (some sig) secret then ⟨true, none⟩
         else ⟨false, some "Signature mismatch"⟩)) := by
  have hE := fun k m => hmacHex_facts k m
  have verify_some : ∀ body sig secret : String,
      verifyWebhookSignature body (some sig) secret =
        if sig == "" || secret == "" then false
        else
          if ((utf8Encode (stripSha256Prefix sig)).take 64 ++
              List.replicate
                (64 - ((utf8Encode (stripSha256Prefix sig)).take 64).length) 0).length ≠
              (utf8Encode (hmacSha256Hex secret body)).length then false
          else (utf16Length (stripSha256Prefix sig) == 64) &&
            ((utf8Encode (stripSha256Prefix sig)).take 64 ++
              List.replicate
                (64 - ((utf8Encode (stripSha256Prefix sig)).take 64).length) 0 ==
             utf8Encode (hmacSha256Hex secret body)) := by
    intro body sig secret
    rfl
  refine ⟨?_, ?_, ?_, ?_, ?_, ?_, ?_, ?_, ?_, ?_⟩
  · -- (i) the correct header verifies
    intro body secret hsec
    set E := hmacSha256Hex secret body with hEdef
    have hstrip : stripSha256Prefix ("sha256=" ++ E) = E := by
      unfold stripSha256Prefix
      rw [String.data_append]
      rw [List.take_left' (by rfl : ("sha256=".data).length = 7)]
      rw [if_pos (by simp)]
      rw [List.drop_left' (by rfl : ("sha256=".data).length = 7)]
    have hsig_ne : (("sha256=" ++ E : String) == "") = false := by
      apply beq_eq_false_iff_ne.mpr
      intro heq
      have := congrArg String.data heq
      rw [String.data_append] at this
      simp at this
    have hsec_ne : ((secret : String) == "") = false :=
      beq_eq_false_iff_ne.mpr hsec
    rw [verify_some, hsig_ne, hsec_ne, hstrip]
    have hEutf8 : utf8Encode E = E.data.map Char.toNat :=
      utf8EncodeList_ascii _ (fun c hc => ((hE secret body).1 c hc).2)
    have hlen64 : (utf8Encode E).length = 64 := by
      rw [hEutf8, List.length_map, (hE secret body).2]
    have htake : (utf8Encode E).take 64 = utf8Encode E :=
      List.take_of_length_le (by omega)
    have hu16 : utf16Length E = 64 := by
      show utf16LenList E.data = 64
      rw [utf16LenList_ascii E.data (fun c hc => ((hE secret body).1 c hc).2),
        (hE secret body).2]
    simp [htake, hlen64, hu16]
  · -- (ii) a different digest is rejected
    intro body sig secret hne
    rw [verify_some]
    by_cases h0 : (sig == "" || secret == "") = true
    · rw [if_pos h0]
    · rw [if_neg h0]
      split_ifs with hl
      · rfl
      · by_contra hcon
        rw [Bool.not_eq_false, Bool.and_eq_true, beq_iff_eq, beq_iff_eq] at hcon
        exact hne (paddedBuffer_inversion _ _
          (hE secret body).1 (hE secret body).2 hcon.1 hcon.2)
  · -- (iii) wrong length is rejected
    intro body sig secret hne
    rw [verify_some]
    by_cases h0 : (sig == "" || secret == "") = true
    · rw [if_pos h0]
    · rw [if_neg h0]
      split_ifs with hl
      · rfl
      · rw [beq_eq_false_iff_ne.mpr hne, Bool.false_and]
  · intro body secret
    rfl
  · intro body sig
    rw [verify_some]
    simp
  · intro body secret
    rw [verify_some]
    simp
  · intro body secret
    rfl
  · intro body sig hsig
    simp only [verifyWebhookSignatureDetailed]
    rw [if_neg (by simpa using hsig)]
    rfl
  · intro body sig secret hsig hsec hfmt
    simp only [verifyWebhookSignatureDetailed]
    rw [if_neg (by simpa using hsig), if_neg (by simpa using hsec),
      if_pos (by simpa using hfmt)]
  · intro body sig secret hsig hsec hfmt
    simp only [verifyWebhookSignatureDetailed]
    rw [if_neg (by simpa using hsig), if_neg (by simpa using hsec),
      if_neg (by simpa using hfmt)]

/-- Witness for `verifyWebhookSignature_contract`: the correctly signed
header for body `x` under secret `k` verifies, and the 3-character digest
`abc` is rejected. -/
theorem verifyWebhookSignature_contract_witness :
    verifyWebhookSignature "x"
      (some ("sha256=" ++ hmacSha256Hex "k" "x")) "k" = true ∧
    verifyWebhookSignature "x" (some "abc") "k" = false :=
  ⟨verifyWebhookSignature_contract.1 "x" "k" (by decide),
   verifyWebhookSignature_contract.2.2.1 "x" "abc" "k" (by decide)⟩

/-! ## Key-order equivalence of schemas (claim C3 machinery)

`jsEquivKeyOrder s t` decides "s and t differ only in mapping-key order":
equal scalars, pointwise-equivalent arrays, and mappings with duplicate-free
keys where every key of one side maps to an equivalent value on the other.
The main theorem shows `sortObject` identifies equivalent schemas, hence
their canonical serializations and hashes agree. -/

/-- Duplicate-free keys. -/
def nodupKeys : List (String × JSValue) → Bool
  | [] => true
  | (k, _) :: ps => !((ps.map Prod.fst).contains k) && nodupKeys ps

mutual

/-- Structure size (for strong induction). -/
def jsSize : JSValue → Nat
  | .arr l => 1 + jsSizeList l
  | .obj l => 1 + jsSizeProps l
  | _ => 1

/-- See `jsSize`. -/
def jsSizeList : List JSValue → Nat
  | [] => 0
  | x :: xs => jsSize x + jsSizeList xs

/-- See `jsSize`. -/
def jsSizeProps : List (String × JSValue) → Nat
  | [] => 0
  | (_, v) :: xs => jsSize v + jsSizeProps xs

end

mutual

/-- Equality up to mapping-key order. -/
def jsEquivKeyOrder : JSValue → JSValue → Bool
  | .obj ps, .obj qs =>
    ps.length == qs.length && nodupKeys ps && nodupKeys qs && jsEquivProps ps qs
  | .arr xs, .arr ys => jsEquivList xs ys
  | .null, .null => true
  | .undef, .undef => true
  | .bool a, .bool b => a == b
  | .num a, .num b => a == b
  | .str a, .str b => a == b
  | _, _ => false

/-- Pointwise equivalence of arrays. -/
def jsEquivList : List JSValue → List JSValue → Bool
  | [], [] => true
  | x :: xs, y :: ys => jsEquivKeyOrder x y && jsEquivList xs ys
  | _, _ => false

/-- Every member key maps to an equivalent value on the other side. -/
def jsEquivProps : List (String × JSValue) → List (String × JSValue) → Bool
  | [], _ => true
  | (k, v) :: ps, qs =>
    (match lookupKey qs k with
     | some w => jsEquivKeyOrder v w
     | none => false) && jsEquivProps ps qs

end

/-- `lexLt` is irreflexive. -/
theorem lexLt_irrefl (l : List Nat) : lexLt l l = false := by
  induction l with
  | nil => rfl
  | cons x xs ih => simp [lexLt, ih]

/-- `lexLt` is transitive. -/
theorem lexLt_trans :
    ∀ a b c : List Nat, lexLt a b = true → lexLt b c = true → lexLt a c = true
  | [], [], _ :: _, h, _ => rfl
  | [], _ :: _, _ :: _, _, _ => rfl
  | x :: xs, y :: ys, z :: zs, h1, h2 => by
    simp only [lexLt, Bool.or_eq_true, Bool.and_eq_true, beq_iff_eq,
      decide_eq_true_eq] at h1 h2 ⊢
    rcases h1 with h1 | ⟨hxy, h1⟩ <;> rcases h2 with h2 | ⟨hyz, h2⟩
    · exact Or.inl (by omega)
    · exact Or.inl (by omega)
    · exact Or.inl (by omega)
    · exact Or.inr ⟨by omega, lexLt_trans xs ys zs h1 h2⟩

/-- `lexLt` trichotomy. -/
theorem lexLt_tricho :
    ∀ a b : List Nat, lexLt a b = true ∨ lexLt b a = true ∨ a = b
  | [], [] => Or.inr (Or.inr rfl)
  | [], _ :: _ => Or.inl rfl
  | _ :: _, [] => Or.inr (Or.inl rfl)
  | x :: xs, y :: ys => by
    rcases Nat.lt_trichotomy x y with h | h | h
    · exact Or.inl (by simp [lexLt, h])
    · subst h
      rcases lexLt_tricho xs ys with h2 | h2 | h2
      · exact Or.inl (by simp [lexLt, h2])
      · exact Or.inr (Or.inl (by simp [lexLt, h2]))
      · exact Or.inr (Or.inr (by rw [h2]))
    · exact Or.inr (Or.inl (by simp [lexLt, h]))

/-- Valid scalar values avoid the surrogate range. -/
theorem char_valid_range (c : Char) :
    c.toNat < 0xD800 ∨ (0xDFFF < c.toNat ∧ c.toNat < 0x110000) := by
  have h := c.valid
  simpa [UInt32.isValidChar, Nat.isValidChar, Char.toNat] using h

/-- UTF-16 encoding is injective on scalar strings. -/
theorem utf16Units_inj_list :
    ∀ a b : List Char,
      (a.flatMap (fun c =>
        if c.toNat < 0x10000 then [c.toNat]
        else [0xD800 + (c.toNat - 0x10000) / 1024, 0xDC00 + (c.toNat - 0x10000) % 1024])) =
      (b.flatMap (fun c =>
        if c.toNat < 0x10000 then [c.toNat]
        else [0xD800 + (c.toNat - 0x10000) / 1024, 0xDC00 + (c.toNat - 0x10000) % 1024])) →
      a = b
  | [], [], _ => rfl
  | [], d :: b, h => by
    exfalso
    rw [List.flatMap_nil, List.flatMap_cons] at h
    split_ifs at h <;> cases h
  | c :: a, [], h => by
    exfalso
    rw [List.flatMap_nil, List.flatMap_cons] at h
    split_ifs at h <;> cases h
  | c :: a, d :: b, h => by
    rw [List.flatMap_cons, List.flatMap_cons] at h
    have hc := char_valid_range c
    have hd := char_valid_range d
    by_cases h1 : c.toNat < 0x10000 <;> by_cases h2 : d.toNat < 0x10000
    · rw [if_pos h1, if_pos h2] at h
      simp only [List.singleton_append, List.cons.injEq] at h
      rw [char_toNat_inj h.1, utf16Units_inj_list a b h.2]
    · exfalso
      rw [if_pos h1, if_neg h2] at h
      simp only [List.singleton_append, List.cons_append, List.cons.injEq] at h
      omega
    · exfalso
      rw [if_neg h1, if_pos h2] at h
      simp only [List.singleton_append, List.cons_append, List.cons.injEq] at h
      omega
    · rw [if_neg h1, if_neg h2] at h
      simp only [List.cons_append, List.cons.injEq] at h
      have : c.toNat = d.toNat := by omega
      rw [char_toNat_inj this, utf16Units_inj_list a b h.2.2]

/-- String version of UTF-16 injectivity. -/
theorem utf16Units_inj {a b : String} (h : utf16Units a = utf16Units b) :
    a = b :=
  string_data_ext (utf16Units_inj_list a.data b.data h)

/-- `jsStrLt` trichotomy. -/
theorem jsStrLt_tricho (a b : String) :
    jsStrLt a b = true ∨ jsStrLt b a = true ∨ a = b := by
  rcases lexLt_tricho (utf16Units a) (utf16Units b) with h | h | h
  · exact Or.inl h
  · exact Or.inr (Or.inl h)
  · exact Or.inr (Or.inr (utf16Units_inj h))

/-- `jsStrLt` is irreflexive. -/
theorem jsStrLt_irrefl (a : String) : jsStrLt a a = false :=
  lexLt_irrefl _

/-- `jsStrLt` is transitive. -/
theorem jsStrLt_trans {a b c : String} (h1 : jsStrLt a b = true)
    (h2 : jsStrLt b c = true) : jsStrLt a c = true :=
  lexLt_trans _ _ _ h1 h2

/-- `jsStrLt` is asymmetric. -/
theorem jsStrLt_asymm {a b : String} (h1 : jsStrLt a b = true) :
    jsStrLt b a = false := by
  by_contra hc
  rw [Bool.not_eq_false] at hc
  have := jsStrLt_trans h1 hc
  rw [jsStrLt_irrefl] at this
  cases this

/-- Weak transitivity: not-gt composes. -/
theorem jsStrLt_nle_trans {a b c : String} (h1 : jsStrLt b a = false)
    (h2 : jsStrLt c b = false) : jsStrLt c a = false := by
  by_contra hc
  rw [Bool.not_eq_false] at hc
  rcases jsStrLt_tricho a b with h | h | h
  · have := jsStrLt_trans hc h
    rw [h2] at this
    cases this
  · rw [h] at h1
    cases h1
  · subst h
    rw [hc] at h2
    cases h2

/-- Insertion produces a permutation of consing. -/
theorem insertPairByKey_perm (p : String × JSValue) (l : List (String × JSValue)) :
    List.Perm (insertPairByKey p l) (p :: l) := by
  induction l with
  | nil => exact List.Perm.refl _
  | cons q qs ih =>
    unfold insertPairByKey
    split_ifs
    · exact ((ih.cons q).trans (List.Perm.swap p q qs))
    · exact List.Perm.refl _

/-- `sortPairs` permutes its input. -/
theorem sortPairs_perm (l : List (String × JSValue)) :
    List.Perm (sortPairs l) l := by
  induction l with
  | nil => exact List.Perm.refl _
  | cons p ps ih =>
    have h1 : List.Perm (insertPairByKey p (sortPairs ps)) (p :: sortPairs ps) :=
      insertPairByKey_perm _ _
    exact h1.trans (ih.cons p)

/-- The weak sortedness relation: the right key is not below the left. -/
def pairLe (p q : String × JSValue) : Prop := jsStrLt q.1 p.1 = false

/-- Insertion preserves weak sortedness. -/
theorem insertPairByKey_pairwise (p : String × JSValue)
    (l : List (String × JSValue)) (h : l.Pairwise pairLe) :
    (insertPairByKey p l).Pairwise pairLe := by
  induction l with
  | nil => exact List.pairwise_singleton _ _
  | cons q qs ih =>
    rcases List.pairwise_cons.mp h with ⟨hq, hqs⟩
    unfold insertPairByKey
    split_ifs with hlt
    · refine List.pairwise_cons.mpr ⟨?_, ih hqs⟩
      intro x hx
      have hx1 : x ∈ p :: qs := (insertPairByKey_perm p qs).mem_iff.mp hx
      rcases List.mem_cons.mp hx1 with rfl | hx2
      · exact jsStrLt_asymm hlt
      · exact hq x hx2
    · refine List.pairwise_cons.mpr ⟨?_, h⟩
      intro x hx
      rcases List.mem_cons.mp hx with rfl | hx2
      · simpa [pairLe] using hlt
      · exact jsStrLt_nle_trans (by simpa using hlt) (hq x hx2)

/-- `sortPairs` output is weakly sorted. -/
theorem sortPairs_pairwise (l : List (String × JSValue)) :
    (sortPairs l).Pairwise pairLe := by
  induction l with
  | nil => exact List.Pairwise.nil
  | cons p ps ih => exact insertPairByKey_pairwise p (sortPairs ps) ih

/-- Two key-sorted, duplicate-free-key permutations coincide. -/
theorem sorted_nodup_unique (l1 l2 : List (String × JSValue))
    (hperm : List.Perm l1 l2)
    (h1 : l1.Pairwise pairLe) (h2 : l2.Pairwise pairLe)
    (hn : (l1.map Prod.fst).Nodup) : l1 = l2 := by
  have hn2 : (l2.map Prod.fst).Nodup := ((hperm.map Prod.fst).nodup_iff).mp hn
  have hstrict : ∀ (l : List (String × JSValue)), l.Pairwise pairLe →
      (l.map Prod.fst).Nodup →
      l.Pairwise (fun p q => jsStrLt p.1 q.1 = true) := by
    intro l hle hnod
    have hne : l.Pairwise (fun p q => p.1 ≠ q.1) :=
      (List.pairwise_map).mp hnod
    have := hle.and hne
    exact this.imp (fun hpq => by
      rcases hpq with ⟨hpq1, hpq2⟩
      rcases jsStrLt_tricho _ _ with h | h | h
      · exact h
      · rw [hpq1] at h
        cases h
      · exact absurd h hpq2)
  haveI : IsAntisymm (String × JSValue) (fun p q => jsStrLt p.1 q.1 = true) := by
    constructor
    intro a b hab hba
    have := jsStrLt_trans hab hba
    rw [jsStrLt_irrefl] at this
    cases this
  exact List.eq_of_perm_of_sorted hperm (hstrict l1 h1 hn) (hstrict l2 h2 hn2)

/-- A successful lookup is a membership. -/
theorem lookup_mem {l : List (String × JSValue)} {k : String} {v : JSValue}
    (h : lookupKey l k = some v) : (k, v) ∈ l := by
  induction l with
  | nil => cases h
  | cons p ps ih =>
    rcases p with ⟨pk, pv⟩
    unfold lookupKey at h
    split_ifs at h with hk
    · cases h
      have hpk : pk = k := by simpa using hk
      subst hpk
      exact List.mem_cons_self _ _
    · exact List.mem_cons_of_mem _ (ih h)

/-- Erase the first entry with the given key. -/
def eraseKeyF : List (String × JSValue) → String → List (String × JSValue)
  | [], _ => []
  | (k2, v) :: ps, k => if k2 == k then ps else (k2, v) :: eraseKeyF ps k

/-- Erasing yields a sublist. -/
theorem eraseKeyF_sublist (l : List (String × JSValue)) (k : String) :
    (eraseKeyF l k).Sublist l := by
  induction l with
  | nil => exact List.Sublist.refl _
  | cons p ps ih =>
    rcases p with ⟨pk, pv⟩
    unfold eraseKeyF
    split_ifs
    · exact List.sublist_cons_self _ _
    · exact ih.cons₂ _

/-- Removing a looked-up entry is a permutation complement. -/
theorem perm_cons_eraseKeyF {l : List (String × JSValue)} {k : String}
    {v : JSValue} (h : lookupKey l k = some v) :
    List.Perm l ((k, v) :: eraseKeyF l k) := by
  induction l with
  | nil => cases h
  | cons p ps ih =>
    rcases p with ⟨pk, pv⟩
    unfold lookupKey at h
    unfold eraseKeyF
    split_ifs at * with hk
    · cases h
      have hpk : pk = k := by simpa using hk
      subst hpk
      exact List.Perm.refl _
    · exact ((ih h).cons (pk, pv)).trans (List.Perm.swap _ _ _)

/-- Erasing one key leaves lookups of other keys unchanged. -/
theorem lookup_eraseKeyF {l : List (String × JSValue)} {k k2 : String}
    (hne : k2 ≠ k) : lookupKey (eraseKeyF l k) k2 = lookupKey l k2 := by
  induction l with
  | nil => rfl
  | cons p ps ih =>
    rcases p with ⟨pk, pv⟩
    unfold eraseKeyF
    split_ifs with hk
    · have hpk : pk = k := by simpa using hk
      subst hpk
      show lookupKey ps k2 = lookupKey ((pk, pv) :: ps) k2
      rw [show lookupKey ((pk, pv) :: ps) k2 =
        (if (pk == k2) = true then some pv else lookupKey ps k2) from rfl]
      rw [if_neg (by simpa using fun hcon => hne (by simp [hcon]))]
    · show lookupKey ((pk, pv) :: eraseKeyF ps k) k2 = lookupKey ((pk, pv) :: ps) k2
      rw [show lookupKey ((pk, pv) :: eraseKeyF ps k) k2 =
        (if (pk == k2) = true then some pv else lookupKey (eraseKeyF ps k) k2) from rfl]
      rw [show lookupKey ((pk, pv) :: ps) k2 =
        (if (pk == k2) = true then some pv else lookupKey ps k2) from rfl]
      split_ifs with h2
      · rfl
      · exact ih

/-- Pair lists with duplicate-free keys, equal length and value-preserving
lookups are permutations. -/
theorem perm_of_lookup_sub :
    ∀ (l1 l2 : List (String × JSValue)),
      (l1.map Prod.fst).Nodup → (l2.map Prod.fst).Nodup →
      l1.length = l2.length →
      (∀ k v, lookupKey l1 k = some v → lookupKey l2 k = some v) →
      List.Perm l1 l2
  | [], [], _, _, _, _ => List.Perm.refl _
  | [], _ :: _, _, _, hlen, _ => by cases hlen
  | _ :: _, [], _, _, hlen, _ => by cases hlen
  | (k, v) :: l1, l2, hn1, hn2, hlen, hsub => by
    have hself : lookupKey ((k, v) :: l1) k = some v := by
      unfold lookupKey
      rw [if_pos (by simp)]
    have hl2 : lookupKey l2 k = some v := hsub k v hself
    have hperm2 : List.Perm l2 ((k, v) :: eraseKeyF l2 k) := perm_cons_eraseKeyF hl2
    have hkey_not : k ∉ l1.map Prod.fst := by
      rw [List.map_cons] at hn1
      exact (List.nodup_cons.mp hn1).1
    have hn1t : (l1.map Prod.fst).Nodup := by
      rw [List.map_cons] at hn1
      exact (List.nodup_cons.mp hn1).2
    have hn2e : ((eraseKeyF l2 k).map Prod.fst).Nodup := by
      have hsl : (eraseKeyF l2 k).Sublist l2 := eraseKeyF_sublist _ _
      exact (hsl.map Prod.fst).nodup hn2
    have hlen2 : l1.length = (eraseKeyF l2 k).length := by
      have := hperm2.length_eq
      simp only [List.length_cons] at this hlen
      omega
    have hsub2 : ∀ k2 v2, lookupKey l1 k2 = some v2 →
        lookupKey (eraseKeyF l2 k) k2 = some v2 := by
      intro k2 v2 hlk
      have hk2ne : k2 ≠ k := by
        intro hcon
        subst hcon
        exact hkey_not (List.mem_map.mpr ⟨(k2, v2), lookup_mem hlk, rfl⟩)
      rw [lookup_eraseKeyF hk2ne]
      apply hsub
      unfold lookupKey
      rw [if_neg (by simpa using fun hcon => hk2ne (by simp [hcon]))]
      exact hlk
    have ihp := perm_of_lookup_sub l1 (eraseKeyF l2 k) hn1t hn2e hlen2 hsub2
    exact (ihp.cons (k, v)).trans hperm2.symm

/-- Sizes are positive. -/
theorem jsSize_pos (v : JSValue) : 1 ≤ jsSize v := by
  cases v <;> simp [jsSize]

/-- Member size bound (arrays). -/
theorem jsSizeList_mem : ∀ (xs : List JSValue) (x : JSValue), x ∈ xs →
    jsSize x ≤ jsSizeList xs := by
  intro xs
  induction xs with
  | nil => intro x hx; cases hx
  | cons y ys ih =>
    intro x hx
    rcases List.mem_cons.mp hx with rfl | hx2
    · simp [jsSizeList]
    · have := ih x hx2
      simp only [jsSizeList]
      omega

/-- Member size bound (objects). -/
theorem jsSizeProps_mem : ∀ (ps : List (String × JSValue)) (k : String)
    (v : JSValue), (k, v) ∈ ps → jsSize v ≤ jsSizeProps ps := by
  intro ps
  induction ps with
  | nil => intro k v hx; cases hx
  | cons p qs ih =>
    intro k v hx
    rcases p with ⟨k1, v1⟩
    rcases List.mem_cons.mp hx with heq | hx2
    · cases heq
      simp [jsSizeProps]
    · have := ih k v hx2
      simp only [jsSizeProps]
      omega

/-- `sortObjectProps` is a value map. -/
theorem sortObjectProps_eq_map : ∀ ps : List (String × JSValue),
    sortObjectProps ps = ps.map (fun p => (p.1, sortObject p.2)) := by
  intro ps
  induction ps with
  | nil => rfl
  | cons p qs ih =>
    rcases p with ⟨k, v⟩
    simp only [sortObjectProps, List.map_cons, ih]

/-- Lookup commutes with value maps. -/
theorem lookup_map_value (f : JSValue → JSValue) :
    ∀ (l : List (String × JSValue)) (k : String),
      lookupKey (l.map (fun p => (p.1, f p.2))) k = (lookupKey l k).map f := by
  intro l
  induction l with
  | nil => intro k; rfl
  | cons p ps ih =>
    intro k
    rcases p with ⟨k1, v1⟩
    rw [List.map_cons]
    rw [show lookupKey ((k1, f v1) :: List.map (fun p => (p.1, f p.2)) ps) k =
      (if (k1 == k) = true then some (f v1)
       else lookupKey (List.map (fun p => (p.1, f p.2)) ps) k) from rfl]
    rw [show lookupKey ((k1, v1) :: ps) k =
      (if (k1 == k) = true then some v1 else lookupKey ps k) from rfl]
    split_ifs with h
    · rfl
    · exact ih k

/-- `nodupKeys` means duplicate-free key list. -/
theorem nodupKeys_nodup : ∀ ps : List (String × JSValue),
    nodupKeys ps = true → (ps.map Prod.fst).Nodup := by
  intro ps
  induction ps with
  | nil => intro _; simp
  | cons p qs ih =>
    rcases p with ⟨k, v⟩
    intro h
    simp only [nodupKeys, Bool.and_eq_true, Bool.not_eq_true'] at h
    rcases h with ⟨h1, h2⟩
    rw [List.map_cons, List.nodup_cons]
    refine ⟨?_, ih h2⟩
    intro hmem
    have : (qs.map Prod.fst).contains k = true := by
      simpa using hmem
    rw [h1] at this
    cases this

/-- The membership form of `jsEquivProps`. -/
theorem jsEquivProps_forall : ∀ (ps qs : List (String × JSValue)),
    jsEquivProps ps qs = true →
    ∀ k v, (k, v) ∈ ps →
      ∃ w, lookupKey qs k = some w ∧ jsEquivKeyOrder v w = true := by
  intro ps
  induction ps with
  | nil =>
    intro qs _ k v hm
    cases hm
  | cons p ps2 ihp =>
    intro qs h k v hm
    rcases p with ⟨k1, v1⟩
    simp only [jsEquivProps, Bool.and_eq_true] at h
    rcases h with ⟨h1, h2⟩
    rcases List.mem_cons.mp hm with heq | hm2
    · cases heq
      rcases hlk : lookupKey qs k with _ | w
      · rw [hlk] at h1
        cases h1
      · rw [hlk] at h1
        exact ⟨w, rfl, h1⟩
    · exact ihp qs h2 k v hm2

/-- Key-order-equivalent values have equal canonical forms (strong
induction on the structure size). -/
theorem sortObject_eq_of_equiv_aux :
    ∀ n (s t : JSValue), jsSize s ≤ n → jsEquivKeyOrder s t = true →
      sortObject s = sortObject t := by
  intro n
  induction n with
  | zero =>
    intro s t hs _
    have := jsSize_pos s
    omega
  | succ n ih =>
    intro s t hs heq
    cases s with
    | undef => cases t <;> simp_all [jsEquivKeyOrder]
    | null => cases t <;> simp_all [jsEquivKeyOrder]
    | bool a => cases t <;> simp_all [jsEquivKeyOrder, sortObject]
    | num a => cases t <;> simp_all [jsEquivKeyOrder, sortObject]
    | str a => cases t <;> simp_all [jsEquivKeyOrder, sortObject]
    | arr xs =>
      cases t with
      | arr ys =>
        have hszL : jsSizeList xs ≤ n := by
          simp only [jsSize] at hs
          omega
        have hlist : ∀ (xs2 ys2 : List JSValue), jsSizeList xs2 ≤ n →
            jsEquivList xs2 ys2 = true → sortObjectList xs2 = sortObjectList ys2 := by
          intro xs2
          induction xs2 with
          | nil =>
            intro ys2 _ h2
            cases ys2 with
            | nil => rfl
            | cons y ys3 => simp [jsEquivList] at h2
          | cons x xs3 ihx =>
            intro ys2 hsz h2
            cases ys2 with
            | nil => simp [jsEquivList] at h2
            | cons y ys3 =>
              simp only [jsEquivList, Bool.and_eq_true] at h2
              simp only [jsSizeList] at hsz
              have hx : jsSize x ≤ n := by omega
              simp only [sortObjectList]
              rw [ih x y hx h2.1, ihx ys3 (by omega) h2.2]
        simp only [jsEquivKeyOrder] at heq
        simp only [sortObject]
        rw [hlist xs ys hszL heq]
      | undef => simp [jsEquivKeyOrder] at heq
      | null => simp [jsEquivKeyOrder] at heq
      | bool b => simp [jsEquivKeyOrder] at heq
      | num b => simp [jsEquivKeyOrder] at heq
      | str b => simp [jsEquivKeyOrder] at heq
      | obj qs => simp [jsEquivKeyOrder] at heq
    | obj ps =>
      cases t with
      | obj qs =>
        simp only [jsEquivKeyOrder, Bool.and_eq_true, beq_iff_eq] at heq
        obtain ⟨⟨⟨hlen, hn1⟩, hn2⟩, hprops⟩ := heq
        have hszP : jsSizeProps ps ≤ n := by
          simp only [jsSize] at hs
          omega
        have hsub : ∀ k v,
            lookupKey (ps.map (fun p => (p.1, sortObject p.2))) k = some v →
            lookupKey (qs.map (fun p => (p.1, sortObject p.2))) k = some v := by
          intro k v hv
          rw [lookup_map_value] at hv
          rcases hopt : lookupKey ps k with _ | v0
          · rw [hopt] at hv
            cases hv
          · rw [hopt] at hv
            simp only [Option.map_some'] at hv
            have hmem := lookup_mem hopt
            rcases jsEquivProps_forall ps qs hprops k v0 hmem with ⟨w, hw, hvw⟩
            have hv0sz : jsSize v0 ≤ n :=
              le_trans (jsSizeProps_mem ps k v0 hmem) hszP
            rw [lookup_map_value, hw]
            simp only [Option.map_some']
            rw [← hv, ih v0 w hv0sz hvw]
        have hkeys1 : ((ps.map (fun p => (p.1, sortObject p.2))).map Prod.fst).Nodup := by
          rw [List.map_map]
          exact nodupKeys_nodup ps hn1
        have hkeys2 : ((qs.map (fun p => (p.1, sortObject p.2))).map Prod.fst).Nodup := by
          rw [List.map_map]
          exact nodupKeys_nodup qs hn2
        have hperm : List.Perm (ps.map (fun p => (p.1, sortObject p.2)))
            (qs.map (fun p => (p.1, sortObject p.2))) :=
          perm_of_lookup_sub _ _ hkeys1 hkeys2 (by simp [hlen]) hsub
        have hsorted : sortPairs (ps.map (fun p => (p.1, sortObject p.2))) =
            sortPairs (qs.map (fun p => (p.1, sortObject p.2))) := by
          apply sorted_nodup_unique _ _
            (((sortPairs_perm _).trans hperm).trans (sortPairs_perm _).symm)
            (sortPairs_pairwise _) (sortPairs_pairwise _)
          exact (((sortPairs_perm _).map Prod.fst).nodup_iff).mpr hkeys1
        simp only [sortObject]
        rw [sortObjectProps_eq_map, sortObjectProps_eq_map, hsorted]
      | undef => simp [jsEquivKeyOrder] at heq
      | null => simp [jsEquivKeyOrder] at heq
      | bool b => simp [jsEquivKeyOrder] at heq
      | num b => simp [jsEquivKeyOrder] at heq
      | str b => simp [jsEquivKeyOrder] at heq
      | arr ys => simp [jsEquivKeyOrder] at heq

/-- Canonicalization identifies key-order-equivalent values. -/
theorem sortObject_eq_of_equiv (s t : JSValue)
    (h : jsEquivKeyOrder s t = true) : sortObject s = sortObject t :=
  sortObject_eq_of_equiv_aux (jsSize s) s t le_rfl h

mutual

/-- No mapping key anywhere in the value is an array index. -/
def noIndexKeys : JSValue → Bool
  | .arr items => noIndexKeysList items
  | .obj props => noIndexKeysProps props
  | _ => true

/-- See `noIndexKeys`. -/
def noIndexKeysList : List JSValue → Bool
  | [] => true
  | x :: xs => noIndexKeys x && noIndexKeysList xs

/-- See `noIndexKeys`. -/
def noIndexKeysProps : List (String × JSValue) → Bool
  | [] => true
  | (k, v) :: xs => !(isArrayIndex k) && noIndexKeys v && noIndexKeysProps xs

end

/-- Membership form of `noIndexKeysProps`. -/
theorem noIndexKeysProps_forall : ∀ ps : List (String × JSValue),
    noIndexKeysProps ps = true →
    ∀ k v, (k, v) ∈ ps → isArrayIndex k = false ∧ noIndexKeys v = true := by
  intro ps
  induction ps with
  | nil => intro _ k v hm; cases hm
  | cons p ps2 ih =>
    intro h k v hm
    rcases p with ⟨k1, v1⟩
    simp only [noIndexKeysProps, Bool.and_eq_true, Bool.not_eq_true'] at h
    obtain ⟨⟨h1, h2⟩, h3⟩ := h
    rcases List.mem_cons.mp hm with heq | hm2
    · cases heq
      exact ⟨h1, h2⟩
    · exact ih h3 k v hm2

/-- `specSortObjectProps` is a value map. -/
theorem specSortObjectProps_eq_map : ∀ ps : List (String × JSValue),
    specSortObjectProps ps = ps.map (fun p => (p.1, specSortObject p.2)) := by
  intro ps
  induction ps with
  | nil => rfl
  | cons p qs ih =>
    rcases p with ⟨k, v⟩
    simp only [specSortObjectProps, List.map_cons, ih]

/-- The own-order rebuild is the identity when no key is an array
index. -/
theorem jsOwnOrder_id (l : List (String × JSValue))
    (h : ∀ p ∈ l, isArrayIndex p.1 = false) : jsOwnOrder l = l := by
  unfold jsOwnOrder
  have h1 : l.filter (fun p => isArrayIndex p.1) = [] := by
    rw [List.filter_eq_nil]
    intro p hp
    simp [h p hp]
  have h2 : l.filter (fun p => !(isArrayIndex p.1)) = l := by
    apply List.filter_eq_self.mpr
    intro p hp
    simp [h p hp]
  rw [h1, h2]
  rfl

/-- On schemas free of array-index keys the code canonicalization and the
spec's lexicographic one coincide (strong induction on structure
size). -/
theorem sortObject_eq_spec_aux :
    ∀ n (s : JSValue), jsSize s ≤ n → noIndexKeys s = true →
      sortObject s = specSortObject s := by
  intro n
  induction n with
  | zero =>
    intro s hs _
    have := jsSize_pos s
    omega
  | succ n ih =>
    intro s hs hnk
    cases s with
    | undef => rfl
    | null => rfl
    | bool a => rfl
    | num a => rfl
    | str a => rfl
    | arr xs =>
      have hszL : jsSizeList xs ≤ n := by
        simp only [jsSize] at hs
        omega
      simp only [noIndexKeys] at hnk
      have hlist : ∀ xs2 : List JSValue, jsSizeList xs2 ≤ n →
          noIndexKeysList xs2 = true →
          sortObjectList xs2 = specSortObjectList xs2 := by
        intro xs2
        induction xs2 with
        | nil => intro _ _; rfl
        | cons x xs3 ihx =>
          intro hsz h2
          simp only [noIndexKeysList, Bool.and_eq_true] at h2
          simp only [jsSizeList] at hsz
          simp only [sortObjectList, specSortObjectList]
          rw [ih x (by omega) h2.1, ihx (by omega) h2.2]
      simp only [sortObject, specSortObject]
      rw [hlist xs hszL hnk]
    | obj ps =>
      have hszP : jsSizeProps ps ≤ n := by
        simp only [jsSize] at hs
        omega
      simp only [noIndexKeys] at hnk
      have hext := noIndexKeysProps_forall ps hnk
      have hprops : sortObjectProps ps = specSortObjectProps ps := by
        rw [sortObjectProps_eq_map, specSortObjectProps_eq_map]
        apply List.map_congr_left
        intro p hp
        rcases p with ⟨k, v⟩
        have h2 := hext k v hp
        have hsz : jsSize v ≤ n := le_trans (jsSizeProps_mem ps k v hp) hszP
        show (k, sortObject v) = (k, specSortObject v)
        rw [ih v hsz h2.2]
      have hnoidx : ∀ p ∈ sortPairs (specSortObjectProps ps),
          isArrayIndex p.1 = false := by
        intro p hp
        have hp2 : p ∈ specSortObjectProps ps := (sortPairs_perm _).mem_iff.mp hp
        rw [specSortObjectProps_eq_map] at hp2
        rcases List.mem_map.mp hp2 with ⟨q, hq, hqe⟩
        rcases q with ⟨k, v⟩
        rw [← hqe]
        exact (hext k v hq).1
      simp only [sortObject, specSortObject]
      rw [hprops, jsOwnOrder_id _ hnoidx]

/-- Closed form of `sortObject_eq_spec_aux`. -/
theorem sortObject_eq_spec (v : JSValue) (h : noIndexKeys v = true) :
    sortObject v = specSortObject v :=
  sortObject_eq_spec_aux (jsSize v) v le_rfl h

/-- The C3 counterexample schema: both keys are array indices, so the
rebuilt object enumerates them numerically, not lexicographically. -/
def idxKeySchema : JSValue := .obj [("10", .num 1), ("2", .num 2)]

set_option maxRecDepth 10000 in
/-- C3 counterexample.  The claim's canonical form sorts keys
lexicographically, but the source serializes the rebuilt object in JS
own-property order: for the schema with keys `"10"` and `"2"` the code
emits `"2"` first (ascending numeric index order) while the spec formula
emits `"10"` first, and the combined hashes differ. -/
theorem combinedHash_lex_counterexample :
    stringifyJS (sortObject idxKeySchema) =
      ("\x7b\"2\":2,\"10\":1\x7d" : String).data ∧
    stringifyJS (specSortObject idxKeySchema) =
      ("\x7b\"10\":1,\"2\":2\x7d" : String).data ∧
    computeCombinedHash ⟨"t", some "d", some idxKeySchema⟩ ≠
      specCombinedHash ⟨"t", some "d", some idxKeySchema⟩ := by
  refine ⟨by decide, by decide, by decide⟩

/-- C3 (amended).  The combined fingerprint hash is SHA-256 of
`name ++ ":" ++ hex(SHA-256(canonical(schema))) ++ ":" ++
hex(SHA-256(description))`, where `canonical` serializes each mapping in
the JS own-property order of the rebuilt sorted object — array-index keys
first in ascending numeric order, then the remaining keys
lexicographically.  On schemas with no array-index key at any nesting
level this equals the spec's fully lexicographic serialization; and two
descriptors whose schemas differ only in mapping-key order always receive
equal hashes. -/
theorem combinedHash_amended :
    (∀ t : ToolDesc, noIndexKeys (schemaOrEmpty t.inputSchema) = true →
      computeCombinedHash t = specCombinedHash t) ∧
    (∀ (name : String) (desc : Option String) (s1 s2 : JSValue),
      jsEquivKeyOrder s1 s2 = true →
      computeCombinedHash ⟨name, desc, some s1⟩ =
        computeCombinedHash ⟨name, desc, some s2⟩) := by
  constructor
  · intro t h
    show sha256Hex (t.name ++ ":" ++
        sha256Hex ⟨stringifyJS (sortObject (schemaOrEmpty t.inputSchema))⟩ ++ ":" ++
        sha256Hex (t.description.getD "")) = _
    rw [sortObject_eq_spec _ h]
    rfl
  · intro name desc s1 s2 h
    have hsort : sortObject (schemaOrEmpty (some s1)) =
        sortObject (schemaOrEmpty (some s2)) := by
      cases s1 <;> cases s2 <;>
        first
          | rfl
          | (exact sortObject_eq_of_equiv _ _ h)
          | (exfalso; simp [jsEquivKeyOrder] at h)
    show sha256Hex (name ++ ":" ++
        sha256Hex ⟨stringifyJS (sortObject (schemaOrEmpty (some s1)))⟩ ++ ":" ++
        sha256Hex (desc.getD "")) = _
    rw [hsort]
    rfl

/-- Witness for `combinedHash_amended`: an index-free schema hashes to the
spec formula, and swapping two keys leaves the hash unchanged. -/
theorem combinedHash_amended_witness :
    noIndexKeys (schemaOrEmpty (some (JSValue.obj [("a", .num 1)]))) = true ∧
    jsEquivKeyOrder (JSValue.obj [("a", .num 1), ("b", .num 2)])
      (JSValue.obj [("b", .num 2), ("a", .num 1)]) = true ∧
    computeCombinedHash ⟨"read", some "doc", some (.obj [("a", .num 1)])⟩ =
      specCombinedHash ⟨"read", some "doc", some (.obj [("a", .num 1)])⟩ ∧
    computeCombinedHash ⟨"read", some "doc",
        some (.obj [("a", .num 1), ("b", .num 2)])⟩ =
      computeCombinedHash ⟨"read", some "doc",
        some (.obj [("b", .num 2), ("a", .num 1)])⟩ :=
  ⟨by decide, by decide,
   combinedHash_amended.1 ⟨"read", some "doc", some (.obj [("a", .num 1)])⟩
     (by decide),
   combinedHash_amended.2 "read" (some "doc")
     (.obj [("a", .num 1), ("b", .num 2)])
     (.obj [("b", .num 2), ("a", .num 1)]) (by decide)⟩

/- =========================================================================
   C6.  `normalizeForPatternMatching`  (tool-shadowing.ts 353-604)
   ========================================================================= -/

/-- `INVISIBLE_CHARS` (tool-shadowing.ts:353-375). -/
def INVISIBLE_CHARS : List Char :=
  [Char.ofNat 0x200B, Char.ofNat 0x200C, Char.ofNat 0x200D, Char.ofNat 0x200E,
   Char.ofNat 0x200F, Char.ofNat 0x2060, Char.ofNat 0x2061, Char.ofNat 0x2062,
   Char.ofNat 0x2063, Char.ofNat 0x2064, Char.ofNat 0xFEFF, Char.ofNat 0x00AD,
   Char.ofNat 0x034F, Char.ofNat 0x061C, Char.ofNat 0x115F, Char.ofNat 0x1160,
   Char.ofNat 0x17B4, Char.ofNat 0x17B5, Char.ofNat 0x180E, Char.ofNat 0x3164,
   Char.ofNat 0xFFA0]

/-- `BIDI_CONTROL_CHARS` (tool-shadowing.ts:381-391). -/
def BIDI_CONTROL_CHARS : List Char :=
  [Char.ofNat 0x202A, Char.ofNat 0x202B, Char.ofNat 0x202C, Char.ofNat 0x202D,
   Char.ofNat 0x202E, Char.ofNat 0x2066, Char.ofNat 0x2067, Char.ofNat 0x2068,
   Char.ofNat 0x2069]

/-- The `for (const char of CHARS) normalized = normalized.split(char).join(..)`
loops: removing every occurrence of each listed character is filtering
them all out. -/
def stripChars (remove : List Char) (l : List Char) : List Char :=
  l.filter (fun c => !(remove.contains c))

/-- One UTF-8 continuation byte written as a percent escape: `%XY` with
`0x80 ≤ XY < 0xC0`.  Returns the byte value and the remaining input. -/
def readContByte : List Char → Option (Nat × List Char)
  | c :: h1 :: h2 :: rest =>
    if c = '%' then
      match hexVal h1, hexVal h2 with
      | some a, some b =>
        if 0x80 ≤ a * 16 + b ∧ a * 16 + b < 0xC0 then some (a * 16 + b, rest)
        else none
      | _, _ => none
    else none
  | _ => none

/-- Modelled from the runtime: `decodeURIComponent` on a scalar-value
string.  Percent escapes are decoded as UTF-8; malformed hex, stray or
missing continuation bytes, overlong encodings, surrogate code points and
code points past 0x10FFFF throw `URIError`, modelled as `none`.
Characters other than `%` pass through unchanged.  Fueled (each step
consumes at least one character). -/
def percentDecode : Nat → List Char → Option (List Char)
  | _, [] => some []
  | 0, _ :: _ => none
  | fuel + 1, c :: rest =>
    if c = '%' then
      match rest with
      | h1 :: h2 :: rest2 =>
        match hexVal h1, hexVal h2 with
        | some a, some b =>
          if a * 16 + b < 0x80 then
            (percentDecode fuel rest2).map (fun d => Char.ofNat (a * 16 + b) :: d)
          else if a * 16 + b < 0xC0 then none
          else if a * 16 + b < 0xE0 then
            match readContByte rest2 with
            | some (b1, rest3) =>
              if (a * 16 + b - 0xC0) * 64 + (b1 - 0x80) < 0x80 then none
              else
                (percentDecode fuel rest3).map
                  (fun d => Char.ofNat ((a * 16 + b - 0xC0) * 64 + (b1 - 0x80)) :: d)
            | none => none
          else if a * 16 + b < 0xF0 then
            match readContByte rest2 with
            | some (b1, rest3) =>
              match readContByte rest3 with
              | some (b2, rest4) =>
                if (a * 16 + b - 0xE0) * 4096 + (b1 - 0x80) * 64 + (b2 - 0x80) < 0x800 then
                  none
                else if 0xD800 ≤ (a * 16 + b - 0xE0) * 4096 + (b1 - 0x80) * 64 + (b2 - 0x80) ∧
                    (a * 16 + b - 0xE0) * 4096 + (b1 - 0x80) * 64 + (b2 - 0x80) ≤ 0xDFFF then
                  none
                else
                  (percentDecode fuel rest4).map
                    (fun d => Char.ofNat ((a * 16 + b - 0xE0) * 4096 +
                      (b1 - 0x80) * 64 + (b2 - 0x80)) :: d)
              | none => none
            | none => none
          else if a * 16 + b < 0xF8 then
            match readContByte rest2 with
            | some (b1, rest3) =>
              match readContByte rest3 with
              | some (b2, rest4) =>
                match readContByte rest4 with
                | some (b3, rest5) =>
                  if (a * 16 + b - 0xF0) * 262144 + (b1 - 0x80) * 4096 +
                      (b2 - 0x80) * 64 + (b3 - 0x80) < 0x10000 then none
                  else if (a * 16 + b - 0xF0) * 262144 + (b1 - 0x80) * 4096 +
                      (b2 - 0x80) * 64 + (b3 - 0x80) > 0x10FFFF then none
                  else
                    (percentDecode fuel rest5).map
                      (fun d => Char.ofNat ((a * 16 + b - 0xF0) * 262144 +
                        (b1 - 0x80) * 4096 + (b2 - 0x80) * 64 + (b3 - 0x80)) :: d)
                | none => none
              | none => none
            | none => none
          else none
        | _, _ => none
      | _ => none
    else
      (percentDecode fuel rest).map (fun d => c :: d)

/-- One round of the URL-decode loop body (tool-shadowing.ts:533-542):
replace `+` with space, then `decodeURIComponent`; `none` when decoding
throws or returns the input unchanged (the loop breaks either way). -/
def urlDecodeStep (l : List Char) : Option (List Char) :=
  match percentDecode (l.length + 1) (l.map (fun c => if c = '+' then ' ' else c)) with
  | none => none
  | some d => if d == l then none else some d

/-- The bounded `for (let i = 0; i < 3; i++)` URL-decode loop. -/
def urlDecode3 (l : List Char) : List Char :=
  match urlDecodeStep l with
  | none => l
  | some l1 =>
    match urlDecodeStep l1 with
    | none => l1
    | some l2 =>
      match urlDecodeStep l2 with
      | none => l2
      | some l3 => l3

/-- `lowerChar` applied pointwise. -/
def lowerList (l : List Char) : List Char := l.map lowerChar

/-- Case-insensitive global replacement of a fixed pattern, as
`replace(new RegExp(entity, 'gi'), rep)` for a pattern free of regex
metacharacters: scan left to right, replace each match and resume after
it (the replacement text is not rescanned).  Fueled (the patterns used
are nonempty, so each step consumes at least one character). -/
def replaceCIFuel (pat rep : List Char) : Nat → List Char → List Char
  | 0, l => l
  | _ + 1, [] => []
  | fuel + 1, c :: rest =>
    if lowerList ((c :: rest).take pat.length) == pat then
      rep ++ replaceCIFuel pat rep fuel ((c :: rest).drop pat.length)
    else
      c :: replaceCIFuel pat rep fuel rest

/-- Case-insensitive global replacement, fuel instantiated. -/
def replaceCI (pat rep l : List Char) : List Char :=
  replaceCIFuel pat rep l.length l

/-- The fixed `htmlEntities` table (tool-shadowing.ts:560-572), in object
insertion order; `Object.entries` iterates string keys in that order. -/
def htmlEntities : List (List Char × List Char) :=
  [("&lt;".data, "<".data), ("&gt;".data, ">".data), ("&amp;".data, "&".data),
   ("&quot;".data, "\"".data), ("&#39;".data, [Char.ofNat 0x27]),
   ("&apos;".data, [Char.ofNat 0x27]), ("&nbsp;".data, " ".data),
   ("&#x200b;".data, []), ("&#x200c;".data, []), ("&#x200d;".data, []),
   ("&#8203;".data, [])]

/-- The `for (const [entity, char] of Object.entries(htmlEntities))`
replacement loop. -/
def applyHtmlEntities (l : List Char) : List Char :=
  htmlEntities.foldl (fun acc pr => replaceCI pr.1 pr.2 acc) l

/-- Hex digit? (the `gi` flag makes `[0-9a-f]` case-insensitive). -/
def isHexDigitChar (c : Char) : Bool :=
  (hexVal c).isSome

/-- `parseInt(hex, 16)` on a nonempty hex-digit run. -/
def hexToNat (l : List Char) : Nat :=
  l.foldl (fun acc c => acc * 16 + ((hexVal c).getD 0)) 0

/-- Replacement text for one numeric entity (tool-shadowing.ts:575-591):
invisible and bidi characters decode to nothing; a code point past
0x10FFFF makes `String.fromCodePoint` throw `RangeError`, and the
scalar-value string model also excludes lone surrogates; both are `none`. -/
def numericEntityRepl (cp : Nat) : Option (List Char) :=
  if cp > 0x10FFFF then none
  else if 0xD800 ≤ cp ∧ cp ≤ 0xDFFF then none
  else if INVISIBLE_CHARS.contains (Char.ofNat cp) ||
      BIDI_CONTROL_CHARS.contains (Char.ofNat cp) then some []
  else some [Char.ofNat cp]

/-- Global replacement of `/&#x([0-9a-f]+);/gi` (tool-shadowing.ts:575-583).
On a failed match the scan advances one character, as the regex engine
does. -/
def decodeHexEntities : Nat → List Char → Option (List Char)
  | 0, l => some l
  | _ + 1, [] => some []
  | fuel + 1, c :: rest =>
    if c = '&' then
      match rest with
      | d :: x :: rest2 =>
        if d = '#' ∧ (x = 'x' ∨ x = 'X') then
          match rest2.dropWhile isHexDigitChar with
          | ';' :: rest3 =>
            if rest2.takeWhile isHexDigitChar = [] then
              (decodeHexEntities fuel rest).map (fun l2 => c :: l2)
            else
              match numericEntityRepl (hexToNat (rest2.takeWhile isHexDigitChar)) with
              | none => none
              | some rep => (decodeHexEntities fuel rest3).map (fun l2 => rep ++ l2)
          | _ => (decodeHexEntities fuel rest).map (fun l2 => c :: l2)
        else (decodeHexEntities fuel rest).map (fun l2 => c :: l2)
      | _ => (decodeHexEntities fuel rest).map (fun l2 => c :: l2)
    else (decodeHexEntities fuel rest).map (fun l2 => c :: l2)

/-- Global replacement of `/&#(\d+);/g` (tool-shadowing.ts:584-591). -/
def decodeDecEntities : Nat → List Char → Option (List Char)
  | 0, l => some l
  | _ + 1, [] => some []
  | fuel + 1, c :: rest =>
    if c = '&' then
      match rest with
      | d :: rest2 =>
        if d = '#' then
          match rest2.dropWhile isDigitChar with
          | ';' :: rest3 =>
            if rest2.takeWhile isDigitChar = [] then
              (decodeDecEntities fuel rest).map (fun l2 => c :: l2)
            else
              match numericEntityRepl (decToNat (rest2.takeWhile isDigitChar)) with
              | none => none
              | some rep => (decodeDecEntities fuel rest3).map (fun l2 => rep ++ l2)
          | _ => (decodeDecEntities fuel rest).map (fun l2 => c :: l2)
        else (decodeDecEntities fuel rest).map (fun l2 => c :: l2)
      | [] => (decodeDecEntities fuel rest).map (fun l2 => c :: l2)
    else (decodeDecEntities fuel rest).map (fun l2 => c :: l2)

/-- Modelled from the runtime: `String.prototype.normalize('NFKC')`,
restricted to the compatibility mappings exercised in this development
(fullwidth ASCII forms and no-break space); identity on every other
character, in particular on all of ASCII, which is the only part any
theorem below relies on. -/
def nfkcChar (c : Char) : Char :=
  if 0xFF01 ≤ c.toNat ∧ c.toNat ≤ 0xFF5E then Char.ofNat (c.toNat - 0xFEE0)
  else if c.toNat = 0xA0 then ' '
  else c

/-- `normalize('NFKC')` over the whole string (model above). -/
def nfkc (l : List Char) : List Char := l.map nfkcChar

/-- The `HOMOGLYPHS` table (tool-shadowing.ts:395-521), keyed by code
point: the mathematical-bold keys are surrogate pairs in the source, and
the `for...of` loop iterates code points, so each key is one code point. -/
def HOMOGLYPHS : List (Nat × Char) :=
  [(0x0430, 'a'), (0x0441, 'c'), (0x0435, 'e'), (0x04BB, 'h'), (0x0456, 'i'),
   (0x0458, 'j'), (0x043E, 'o'), (0x0440, 'p'), (0x0455, 's'), (0x04AF, 'y'),
   (0x0445, 'x'), (0x0501, 'd'), (0x051B, 'q'), (0x051D, 'w'), (0x0410, 'A'),
   (0x0412, 'B'), (0x0421, 'C'), (0x0415, 'E'), (0x041D, 'H'), (0x0406, 'I'),
   (0x0408, 'J'), (0x041A, 'K'), (0x041C, 'M'), (0x041E, 'O'), (0x0420, 'P'),
   (0x0405, 'S'), (0x0422, 'T'), (0x0425, 'X'), (0x03B1, 'a'), (0x03B5, 'e'),
   (0x03B7, 'n'), (0x03B9, 'i'), (0x03BA, 'k'), (0x03BD, 'v'), (0x03BF, 'o'),
   (0x03C1, 'p'), (0x03C4, 't'), (0x03C5, 'u'), (0x03C7, 'x'), (0x03C9, 'w'),
   (0x0391, 'A'), (0x0392, 'B'), (0x0395, 'E'), (0x0397, 'H'), (0x0399, 'I'),
   (0x039A, 'K'), (0x039C, 'M'), (0x039D, 'N'), (0x039F, 'O'), (0x03A1, 'P'),
   (0x03A4, 'T'), (0x03A5, 'Y'), (0x03A7, 'X'), (0x0251, 'a'), (0x0261, 'g'),
   (0x0269, 'i'), (0x0131, 'i'), (0x0237, 'j'), (0xFF41, 'a'), (0xFF42, 'b'),
   (0xFF43, 'c'), (0xFF44, 'd'), (0xFF45, 'e'), (0xFF46, 'f'), (0xFF47, 'g'),
   (0xFF48, 'h'), (0xFF49, 'i'), (0xFF4A, 'j'), (0xFF4B, 'k'), (0xFF4C, 'l'),
   (0xFF4D, 'm'), (0xFF4E, 'n'), (0xFF4F, 'o'), (0xFF50, 'p'), (0xFF51, 'q'),
   (0xFF52, 'r'), (0xFF53, 's'), (0xFF54, 't'), (0xFF55, 'u'), (0xFF56, 'v'),
   (0xFF57, 'w'), (0xFF58, 'x'), (0xFF59, 'y'), (0xFF5A, 'z'), (0xFF21, 'A'),
   (0xFF22, 'B'), (0xFF23, 'C'), (0xFF24, 'D'), (0xFF25, 'E'), (0xFF26, 'F'),
   (0xFF27, 'G'), (0xFF28, 'H'), (0xFF29, 'I'), (0xFF2A, 'J'), (0xFF2B, 'K'),
   (0xFF2C, 'L'), (0xFF2D, 'M'), (0xFF2E, 'N'), (0xFF2F, 'O'), (0xFF30, 'P'),
   (0xFF31, 'Q'), (0xFF32, 'R'), (0xFF33, 'S'), (0xFF34, 'T'), (0xFF35, 'U'),
   (0xFF36, 'V'), (0xFF37, 'W'), (0xFF38, 'X'), (0xFF39, 'Y'), (0xFF3A, 'Z'),
   (0x1D41A, 'a'), (0x1D41B, 'b'), (0x1D41C, 'c'), (0x1D41D, 'd'), (0x1D41E, 'e'),
   (0x1D41F, 'f'), (0x1D420, 'g'), (0x1D421, 'h'), (0x1D422, 'i'), (0x1D423, 'j'),
   (0x1D424, 'k'), (0x1D425, 'l'), (0x1D426, 'm'), (0x1D427, 'n'), (0x1D428, 'o'),
   (0x1D429, 'p'), (0x1D42A, 'q'), (0x1D42B, 'r'), (0x1D42C, 's'), (0x1D42D, 't'),
   (0x2113, 'l'), (0x212E, 'e'), (0x212F, 'e'), (0x2134, 'o'), (0x0578, 'n'),
   (0x0585, 'o'), (0x057D, 'u'), (0xFF10, '0'), (0xFF11, '1'), (0xFF12, '2'),
   (0xFF13, '3'), (0xFF14, '4'), (0xFF15, '5'), (0xFF16, '6'), (0xFF17, '7'),
   (0xFF18, '8'), (0xFF19, '9')]

/-- `normalizeHomoglyphs` (tool-shadowing.ts:527-533): per code point,
`HOMOGLYPHS[char] ?? char`. -/
def normalizeHomoglyphs (l : List Char) : List Char :=
  l.map (fun c =>
    match HOMOGLYPHS.find? (fun p => p.1 == c.toNat) with
    | some p => p.2
    | none => c)

/-- `replace(/\s+/g, ' ')`: every maximal whitespace run becomes a single
space.  The boolean records whether the previous character was part of a
run already replaced. -/
def collapseWsAux : Bool → List Char → List Char
  | _, [] => []
  | prevWs, c :: rest =>
    if isJsTrimWs c then
      if prevWs then collapseWsAux true rest
      else ' ' :: collapseWsAux true rest
    else c :: collapseWsAux false rest

/-- Whitespace-run collapse from the initial state. -/
def collapseWs (l : List Char) : List Char := collapseWsAux false l

/-- The entity-free prefix of the pipeline: invisible/bidi stripping, the
URL-decode loop, the second stripping round, and the fixed HTML-entity
replacements (tool-shadowing.ts:520-573). -/
def normalizePre (l : List Char) : List Char :=
  applyHtmlEntities (stripChars BIDI_CONTROL_CHARS (stripChars INVISIBLE_CHARS
    (urlDecode3 (stripChars BIDI_CONTROL_CHARS (stripChars INVISIBLE_CHARS l)))))

/-- The pipeline tail after numeric-entity decoding: NFKC, homoglyph
folding, whitespace collapse and trim (tool-shadowing.ts:594-603). -/
def normalizePost (l : List Char) : List Char :=
  jsTrim (collapseWs (normalizeHomoglyphs (nfkc l)))

/-- The decimal-entity pass followed by the pipeline tail. -/
def normalizeStage2 (l7 : List Char) : Option String :=
  match decodeDecEntities (l7.length + 1) l7 with
  | none => none
  | some l8 => some ⟨normalizePost l8⟩

/-- The hex-entity pass followed by the rest. -/
def normalizeStage1 (l6 : List Char) : Option String :=
  match decodeHexEntities (l6.length + 1) l6 with
  | none => none
  | some l7 => normalizeStage2 l7

/-- `normalizeForPatternMatching` (tool-shadowing.ts:516-604) on the
code-point view of the string.  `none` models the uncaught exceptions the
numeric-entity replacers can raise (the URL-decode loop catches its own). -/
def normalizeForPatternMatching (s : String) : Option String :=
  normalizeStage1 (normalizePre s.data)

/-- Printable ASCII, excluding the three characters that the URL-decode
and entity-decode stages can act on. -/
def plainAscii (c : Char) : Bool :=
  decide (0x20 ≤ c.toNat) && decide (c.toNat ≤ 0x7E) &&
  !(c == '%') && !(c == '+') && !(c == '&')

/-- Invisible characters are outside printable ASCII. -/
theorem inv_chars_nonascii : ∀ c ∈ INVISIBLE_CHARS, 0x7E < c.toNat := by decide

/-- Bidi control characters are outside printable ASCII. -/
theorem bidi_chars_nonascii : ∀ c ∈ BIDI_CONTROL_CHARS, 0x7E < c.toNat := by decide

set_option maxRecDepth 4000 in
/-- Every homoglyph key is outside printable ASCII. -/
theorem homoglyph_keys_nonascii : ∀ p ∈ HOMOGLYPHS, 0x7E < p.1 := by decide

/-- Stripping characters that cannot occur in the input is the identity. -/
theorem stripChars_id (remove l : List Char)
    (hr : ∀ c ∈ remove, 0x7E < c.toNat) (hl : ∀ c ∈ l, c.toNat ≤ 0x7E) :
    stripChars remove l = l := by
  unfold stripChars
  apply List.filter_eq_self.mpr
  intro c hc
  cases hmem : remove.contains c with
  | false => simp [hmem]
  | true =>
    exfalso
    have h1 : c ∈ remove := by simpa using hmem
    have h2 := hr c h1
    have h3 := hl c hc
    omega

/-- `percentDecode` is the identity on percent-free input. -/
theorem percentDecode_id (l : List Char) (h : ∀ c ∈ l, ¬ c = '%') :
    ∀ fuel, l.length < fuel → percentDecode fuel l = some l := by
  induction l with
  | nil =>
    intro fuel _
    cases fuel <;> rfl
  | cons c rest ih =>
    intro fuel hf
    cases fuel with
    | zero => simp at hf
    | succ k =>
      have hk : rest.length < k := by
        rw [List.length_cons] at hf
        omega
      simp only [percentDecode]
      rw [if_neg (h c (List.mem_cons_self c rest)),
        ih (fun x hx => h x (List.mem_cons_of_mem c hx)) k hk]
      rfl

/-- The URL-decode loop is the identity on input free of `%` and `+`. -/
theorem urlDecode3_id (l : List Char)
    (hp : ∀ c ∈ l, ¬ c = '%') (hplus : ∀ c ∈ l, ¬ c = '+') :
    urlDecode3 l = l := by
  have hmap : l.map (fun c => if c = '+' then ' ' else c) = l := by
    have h1 : ∀ c ∈ l, (if c = '+' then ' ' else c) = c :=
      fun c hc => if_neg (hplus c hc)
    exact (List.map_congr_left h1).trans (List.map_id l)
  have hstep : urlDecodeStep l = none := by
    unfold urlDecodeStep
    rw [hmap, percentDecode_id l hp (l.length + 1) (by omega)]
    simp
  unfold urlDecode3
  rw [hstep]

/-- Valid code points round-trip through `Char.ofNat`. -/
theorem char_toNat_ofNat (n : Nat) (h : n < 0xD800) :
    (Char.ofNat n).toNat = n := by
  simp [Char.ofNat, Char.toNat, Char.ofNatAux, Nat.isValidChar, h, UInt32.toNat]

/-- ASCII lowercasing maps only `&` to `&`. -/
theorem lowerChar_eq_amp (c : Char) (h : lowerChar c = '&') : c = '&' := by
  unfold lowerChar at h
  split_ifs at h with hAZ
  · exfalso
    have h1 : 65 ≤ c.toNat := hAZ.1
    have h2 : c.toNat ≤ 90 := hAZ.2
    have h3 := congrArg Char.toNat h
    rw [char_toNat_ofNat _ (by omega)] at h3
    have h4 : ('&' : Char).toNat = 38 := rfl
    rw [h4] at h3
    omega
  · exact h

/-- Case-insensitive replacement of an `&`-headed pattern is the identity
on `&`-free text. -/
theorem replaceCIFuel_id (pat rep : List Char) (hpat : pat.head? = some '&')
    (l : List Char) (hl : ∀ c ∈ l, ¬ c = '&') :
    ∀ fuel, replaceCIFuel pat rep fuel l = l := by
  obtain ⟨p0, pt, rfl⟩ : ∃ p0 pt, pat = p0 :: pt := by
    cases pat with
    | nil => simp at hpat
    | cons a b => exact ⟨a, b, rfl⟩
  have hp0 : p0 = '&' := by simpa using hpat
  subst hp0
  induction l with
  | nil => intro fuel; cases fuel <;> rfl
  | cons c rest ih =>
    intro fuel
    cases fuel with
    | zero => rfl
    | succ k =>
      have hne : (lowerList ((c :: rest).take (('&' :: pt).length)) ==
          ('&' :: pt)) = false := by
        apply beq_eq_false_iff_ne.mpr
        intro heq
        have hlc : lowerChar c = '&' := by
          rw [List.length_cons, List.take_succ_cons] at heq
          unfold lowerList at heq
          rw [List.map_cons] at heq
          injection heq with heq1 _
        exact hl c (List.mem_cons_self c rest) (lowerChar_eq_amp c hlc)
      simp only [replaceCIFuel, hne, Bool.false_eq_true, if_false]
      rw [ih (fun x hx => hl x (List.mem_cons_of_mem c hx)) k]

/-- The fixed-entity pass is the identity on `&`-free text. -/
theorem applyHtmlEntities_id (l : List Char) (hl : ∀ c ∈ l, ¬ c = '&') :
    applyHtmlEntities l = l := by
  have key : ∀ ents : List (List Char × List Char),
      (∀ pr ∈ ents, pr.1.head? = some '&') →
      List.foldl (fun acc pr => replaceCI pr.1 pr.2 acc) l ents = l := by
    intro ents
    induction ents with
    | nil => intro _; rfl
    | cons e es ih =>
      intro hh
      have hre : replaceCI e.1 e.2 l = l := by
        unfold replaceCI
        exact replaceCIFuel_id e.1 e.2 (hh e (List.mem_cons_self e es)) l hl l.length
      simp only [List.foldl_cons]
      rw [hre, ih (fun pr hpr => hh pr (List.mem_cons_of_mem e hpr))]
  exact key htmlEntities (by decide)

/-- Hex-entity decoding is the identity on `&`-free text. -/
theorem decodeHexEntities_id (l : List Char) (h : ∀ c ∈ l, ¬ c = '&') :
    ∀ fuel, decodeHexEntities fuel l = some l := by
  induction l with
  | nil => intro fuel; cases fuel <;> rfl
  | cons c rest ih =>
    intro fuel
    cases fuel with
    | zero => rfl
    | succ k =>
      simp only [decodeHexEntities]
      rw [if_neg (h c (List.mem_cons_self c rest)),
        ih (fun x hx => h x (List.mem_cons_of_mem c hx)) k]
      rfl

/-- Decimal-entity decoding is the identity on `&`-free text. -/
theorem decodeDecEntities_id (l : List Char) (h : ∀ c ∈ l, ¬ c = '&') :
    ∀ fuel, decodeDecEntities fuel l = some l := by
  induction l with
  | nil => intro fuel; cases fuel <;> rfl
  | cons c rest ih =>
    intro fuel
    cases fuel with
    | zero => rfl
    | succ k =>
      simp only [decodeDecEntities]
      rw [if_neg (h c (List.mem_cons_self c rest)),
        ih (fun x hx => h x (List.mem_cons_of_mem c hx)) k]
      rfl

/-- The NFKC model is the identity on ASCII. -/
theorem nfkc_id (l : List Char) (h : ∀ c ∈ l, c.toNat ≤ 0x7E) : nfkc l = l := by
  unfold nfkc
  have hch : ∀ c ∈ l, nfkcChar c = c := by
    intro c hc
    unfold nfkcChar
    have h1 : ¬ (0xFF01 ≤ c.toNat ∧ c.toNat ≤ 0xFF5E) := by
      intro hcontra
      have := h c hc
      omega
    have h2 : ¬ c.toNat = 0xA0 := by
      have := h c hc
      omega
    rw [if_neg h1, if_neg h2]
  exact (List.map_congr_left hch).trans (List.map_id l)

/-- Homoglyph folding is the identity on ASCII. -/
theorem normalizeHomoglyphs_id (l : List Char) (h : ∀ c ∈ l, c.toNat ≤ 0x7E) :
    normalizeHomoglyphs l = l := by
  unfold normalizeHomoglyphs
  have hch : ∀ c ∈ l,
      (match HOMOGLYPHS.find? (fun p => p.1 == c.toNat) with
       | some p => p.2
       | none => c) = c := by
    intro c hc
    have hf : HOMOGLYPHS.find? (fun p => p.1 == c.toNat) = none := by
      apply List.find?_eq_none.mpr
      intro p hp
      have h1 := homoglyph_keys_nonascii p hp
      have h2 := h c hc
      simp only [beq_iff_eq]
      omega
    rw [hf]
  exact (List.map_congr_left hch).trans (List.map_id l)

/-- No two adjacent whitespace characters, as a chain relation. -/
def notBothWs (c d : Char) : Prop :=
  ¬ (isJsTrimWs c = true ∧ isJsTrimWs d = true)

/-- Unfolding `collapseWsAux` inside a run. -/
theorem collapseWsAux_ws_true (c : Char) (rest : List Char)
    (h : isJsTrimWs c = true) :
    collapseWsAux true (c :: rest) = collapseWsAux true rest := by
  show (if isJsTrimWs c = true then
      (if (true : Bool) = true then collapseWsAux true rest
       else ' ' :: collapseWsAux true rest)
    else c :: collapseWsAux false rest) = collapseWsAux true rest
  rw [if_pos h]
  rfl

/-- Unfolding `collapseWsAux` at the start of a run. -/
theorem collapseWsAux_ws_false (c : Char) (rest : List Char)
    (h : isJsTrimWs c = true) :
    collapseWsAux false (c :: rest) = ' ' :: collapseWsAux true rest := by
  show (if isJsTrimWs c = true then
      (if (false : Bool) = true then collapseWsAux true rest
       else ' ' :: collapseWsAux true rest)
    else c :: collapseWsAux false rest) = ' ' :: collapseWsAux true rest
  rw [if_pos h]
  rfl

/-- Unfolding `collapseWsAux` on a non-whitespace character. -/
theorem collapseWsAux_nws (b : Bool) (c : Char) (rest : List Char)
    (h : isJsTrimWs c = false) :
    collapseWsAux b (c :: rest) = c :: collapseWsAux false rest := by
  show (if isJsTrimWs c = true then
      (if b = true then collapseWsAux true rest
       else ' ' :: collapseWsAux true rest)
    else c :: collapseWsAux false rest) = c :: collapseWsAux false rest
  rw [if_neg (by simp [h])]

/-- Collapsed output: all whitespace is a single space, no two adjacent
whitespace characters, and in run state the head is not whitespace. -/
theorem collapseWsAux_props (l : List Char) : ∀ b : Bool,
    (∀ c ∈ collapseWsAux b l, isJsTrimWs c = true → c = ' ') ∧
    List.Chain' notBothWs (collapseWsAux b l) ∧
    (b = true → ∀ c, (collapseWsAux b l).head? = some c →
      isJsTrimWs c = false) := by
  induction l with
  | nil =>
    intro b
    refine ⟨?_, ?_, ?_⟩
    · intro c hc
      rw [show collapseWsAux b [] = [] from rfl] at hc
      cases hc
    · rw [show collapseWsAux b [] = [] from rfl]
      exact List.chain'_nil
    · intro _ c hc
      rw [show collapseWsAux b [] = [] from rfl] at hc
      simp at hc
  | cons c rest ih =>
    intro b
    by_cases hws : isJsTrimWs c = true
    · cases b with
      | true =>
        obtain ⟨iha, ihc, ihh⟩ := ih true
        rw [collapseWsAux_ws_true c rest hws]
        exact ⟨iha, ihc, fun _ => ihh rfl⟩
      | false =>
        obtain ⟨iha, ihc, ihh⟩ := ih true
        rw [collapseWsAux_ws_false c rest hws]
        refine ⟨?_, ?_, ?_⟩
        · intro x hx _
          rcases List.mem_cons.mp hx with h1 | h1
          · exact h1
          · exact iha x h1 (by assumption)
        · apply List.chain'_cons'.mpr
          refine ⟨?_, ihc⟩
          intro y hy
          have hyws : isJsTrimWs y = false := ihh rfl y (Option.mem_def.mp hy)
          intro hcontra
          rw [hyws] at hcontra
          simp at hcontra
        · intro hb
          simp at hb
    · have hwsf : isJsTrimWs c = false := by simpa using hws
      obtain ⟨iha, ihc, _⟩ := ih false
      rw [collapseWsAux_nws b c rest hwsf]
      refine ⟨?_, ?_, ?_⟩
      · intro x hx hxws
        rcases List.mem_cons.mp hx with h1 | h1
        · subst h1
          exact absurd hxws hws
        · exact iha x h1 hxws
      · apply List.chain'_cons'.mpr
        refine ⟨?_, ihc⟩
        intro y _
        intro hcontra
        exact hws hcontra.1
      · intro _ x hx
        have hxc : c = x := by simpa using hx
        exact hxc ▸ hwsf

/-- Every character of the collapsed output is a space or an input
character. -/
theorem collapseWsAux_mem (l : List Char) : ∀ b : Bool, ∀ c ∈ collapseWsAux b l,
    c = ' ' ∨ c ∈ l := by
  induction l with
  | nil =>
    intro b c hc
    rw [show collapseWsAux b [] = [] from rfl] at hc
    cases hc
  | cons d rest ih =>
    intro b c hc
    by_cases hws : isJsTrimWs d = true
    · cases b with
      | true =>
        rw [collapseWsAux_ws_true d rest hws] at hc
        rcases ih true c hc with h1 | h1
        · exact Or.inl h1
        · exact Or.inr (List.mem_cons_of_mem d h1)
      | false =>
        rw [collapseWsAux_ws_false d rest hws] at hc
        rcases List.mem_cons.mp hc with h1 | h1
        · exact Or.inl h1
        · rcases ih true c h1 with h2 | h2
          · exact Or.inl h2
          · exact Or.inr (List.mem_cons_of_mem d h2)
    · have hwsf : isJsTrimWs d = false := by simpa using hws
      rw [collapseWsAux_nws b d rest hwsf] at hc
      rcases List.mem_cons.mp hc with h1 | h1
      · subst h1
        exact Or.inr (List.mem_cons_self c rest)
      · rcases ih false c h1 with h2 | h2
        · exact Or.inl h2
        · exact Or.inr (List.mem_cons_of_mem d h2)

/-- Collapse fixes lists that are already collapsed. -/
theorem collapseWsAux_fix (l : List Char)
    (ha : ∀ c ∈ l, isJsTrimWs c = true → c = ' ')
    (hc : List.Chain' notBothWs l) :
    collapseWsAux false l = l ∧
    ((∀ c, l.head? = some c → isJsTrimWs c = false) →
      collapseWsAux true l = l) := by
  induction l with
  | nil => exact ⟨rfl, fun _ => rfl⟩
  | cons c rest ih =>
    have harest : ∀ x ∈ rest, isJsTrimWs x = true → x = ' ' :=
      fun x hx => ha x (List.mem_cons_of_mem c hx)
    have hcrest : List.Chain' notBothWs rest := hc.tail
    obtain ⟨ihf, iht⟩ := ih harest hcrest
    by_cases hws : isJsTrimWs c = true
    · have hcs : c = ' ' := ha c (List.mem_cons_self c rest) hws
      have hresthead : ∀ x, rest.head? = some x → isJsTrimWs x = false := by
        intro x hx
        cases rest with
        | nil => simp at hx
        | cons d rest2 =>
          have hxd : d = x := by simpa using hx
          subst hxd
          have hrel : notBothWs c d := (List.chain'_cons'.mp hc).1 d (by simp)
          cases hdws : isJsTrimWs d
          · rfl
          · exact absurd ⟨hws, hdws⟩ hrel
      constructor
      · rw [collapseWsAux_ws_false c rest hws, iht hresthead, hcs]
      · intro hhead
        have hcf := hhead c (by simp)
        rw [hws] at hcf
        simp at hcf
    · have hwsf : isJsTrimWs c = false := by simpa using hws
      constructor
      · rw [collapseWsAux_nws false c rest hwsf, ihf]
      · intro _
        rw [collapseWsAux_nws true c rest hwsf, ihf]

/-- The head surviving `dropWhile` fails the predicate. -/
theorem dropWhile_head_false (p : Char → Bool) (l : List Char) :
    ∀ c, (l.dropWhile p).head? = some c → p c = false := by
  induction l with
  | nil => intro c hc; simp at hc
  | cons d rest ih =>
    intro c hc
    rw [List.dropWhile_cons] at hc
    by_cases hd : p d = true
    · rw [if_pos hd] at hc
      exact ih c hc
    · rw [if_neg hd] at hc
      have hcd : d = c := by simpa using hc
      subst hcd
      simpa using hd

/-- `dropWhile` fixes a list whose head fails the predicate. -/
theorem dropWhile_id_of_head (p : Char → Bool) (l : List Char)
    (h : ∀ c, l.head? = some c → p c = false) : l.dropWhile p = l := by
  cases l with
  | nil => rfl
  | cons c rest =>
    rw [List.dropWhile_cons, if_neg (by simp [h c rfl])]

/-- `dropWhile` keeps the last element when its output is nonempty. -/
theorem getLast_dropWhile_ne (p : Char → Bool) (l : List Char)
    (h : l.dropWhile p ≠ []) :
    (l.dropWhile p).getLast? = l.getLast? := by
  induction l with
  | nil => exact absurd rfl h
  | cons c rest ih =>
    rw [List.dropWhile_cons]
    by_cases hc : p c = true
    · rw [if_pos hc]
      rw [List.dropWhile_cons, if_pos hc] at h
      rw [ih h]
      cases rest with
      | nil => exact absurd rfl h
      | cons d rest2 => rw [List.getLast?_cons_cons]
    · rw [if_neg hc]

/-- `dropWhile` output is a subset of the input. -/
theorem mem_dropWhile (p : Char → Bool) (l : List Char) :
    ∀ c ∈ l.dropWhile p, c ∈ l := by
  induction l with
  | nil => intro c hc; simp at hc
  | cons d rest ih =>
    intro c hc
    rw [List.dropWhile_cons] at hc
    by_cases hd : p d = true
    · rw [if_pos hd] at hc
      exact List.mem_cons_of_mem d (ih c hc)
    · rw [if_neg hd] at hc
      exact hc

/-- The head of a trimmed list is not whitespace. -/
theorem jsTrim_head (l : List Char) :
    ∀ c, (jsTrim l).head? = some c → isJsTrimWs c = false := by
  intro c hc
  unfold jsTrim at hc
  rw [List.head?_reverse] at hc
  have hne : (l.dropWhile isJsTrimWs).reverse.dropWhile isJsTrimWs ≠ [] := by
    intro he
    rw [he] at hc
    simp at hc
  rw [getLast_dropWhile_ne _ _ hne, List.getLast?_reverse] at hc
  exact dropWhile_head_false _ _ c hc

/-- The last element of a trimmed list is not whitespace. -/
theorem jsTrim_last (l : List Char) :
    ∀ c, (jsTrim l).getLast? = some c → isJsTrimWs c = false := by
  intro c hc
  unfold jsTrim at hc
  rw [List.getLast?_reverse] at hc
  exact dropWhile_head_false _ _ c hc

/-- Trim fixes a list with non-whitespace ends. -/
theorem jsTrim_fix (l : List Char)
    (hh : ∀ c, l.head? = some c → isJsTrimWs c = false)
    (hl : ∀ c, l.getLast? = some c → isJsTrimWs c = false) :
    jsTrim l = l := by
  unfold jsTrim
  rw [dropWhile_id_of_head _ l hh]
  rw [dropWhile_id_of_head _ l.reverse
    (fun c hc => hl c (by rwa [List.head?_reverse] at hc))]
  exact List.reverse_reverse l

/-- Trimmed output is a subset of the input. -/
theorem jsTrim_mem (l : List Char) : ∀ c ∈ jsTrim l, c ∈ l := by
  intro c hc
  unfold jsTrim at hc
  rw [List.mem_reverse] at hc
  have h1 := mem_dropWhile _ _ c hc
  rw [List.mem_reverse] at h1
  exact mem_dropWhile _ _ c h1

/-- The adjacency chain survives `dropWhile`. -/
theorem chain_dropWhile (p : Char → Bool) (l : List Char)
    (h : List.Chain' notBothWs l) : List.Chain' notBothWs (l.dropWhile p) := by
  induction l with
  | nil => simpa using h
  | cons c rest ih =>
    rw [List.dropWhile_cons]
    by_cases hc : p c = true
    · rw [if_pos hc]
      exact ih h.tail
    · rw [if_neg hc]
      exact h

/-- The adjacency chain survives reversal (the relation is symmetric). -/
theorem chain_reverse_nbw (l : List Char) (h : List.Chain' notBothWs l) :
    List.Chain' notBothWs l.reverse := by
  rw [List.chain'_reverse]
  exact h.imp (fun a b hab hcontra => hab ⟨hcontra.2, hcontra.1⟩)

/-- The adjacency chain survives trimming. -/
theorem chain_jsTrim (l : List Char) (h : List.Chain' notBothWs l) :
    List.Chain' notBothWs (jsTrim l) := by
  unfold jsTrim
  exact chain_reverse_nbw _ (chain_dropWhile _ _
    (chain_reverse_nbw _ (chain_dropWhile _ _ h)))

/-- Collapse-then-trim is idempotent. -/
theorem wCollapse_idem (l : List Char) :
    jsTrim (collapseWs (jsTrim (collapseWs l))) = jsTrim (collapseWs l) := by
  obtain ⟨pa, pc, _⟩ := collapseWsAux_props l false
  have ha2 : ∀ c ∈ jsTrim (collapseWsAux false l), isJsTrimWs c = true → c = ' ' :=
    fun c hc => pa c (jsTrim_mem _ c hc)
  have hc2 : List.Chain' notBothWs (jsTrim (collapseWsAux false l)) :=
    chain_jsTrim _ pc
  have hfix : collapseWs (jsTrim (collapseWs l)) = jsTrim (collapseWs l) := by
    unfold collapseWs
    exact (collapseWsAux_fix _ ha2 hc2).1
  rw [hfix]
  exact jsTrim_fix _ (jsTrim_head _) (jsTrim_last _)

/-- Components of `plainAscii`. -/
theorem plainAscii_facts (c : Char) (h : plainAscii c = true) :
    c.toNat ≤ 0x7E ∧ ¬ c = '%' ∧ ¬ c = '+' ∧ ¬ c = '&' := by
  unfold plainAscii at h
  simp only [Bool.and_eq_true, decide_eq_true_eq, Bool.not_eq_true',
    beq_eq_false_iff_ne] at h
  exact ⟨h.1.1.1.2, h.1.1.2, h.1.2, h.2⟩

/-- On plain-ASCII input the pipeline reduces to collapse-and-trim. -/
theorem normalize_eval_plain (l : List Char)
    (h : ∀ c ∈ l, plainAscii c = true) :
    normalizeForPatternMatching ⟨l⟩ = some ⟨normalizePost l⟩ ∧
    normalizePost l = jsTrim (collapseWs l) := by
  have hascii : ∀ c ∈ l, c.toNat ≤ 0x7E := fun c hc => (plainAscii_facts c (h c hc)).1
  have hpct : ∀ c ∈ l, ¬ c = '%' := fun c hc => (plainAscii_facts c (h c hc)).2.1
  have hplus : ∀ c ∈ l, ¬ c = '+' := fun c hc => (plainAscii_facts c (h c hc)).2.2.1
  have hamp : ∀ c ∈ l, ¬ c = '&' := fun c hc => (plainAscii_facts c (h c hc)).2.2.2
  have hpre : normalizePre l = l := by
    unfold normalizePre
    rw [stripChars_id _ _ inv_chars_nonascii hascii,
      stripChars_id _ _ bidi_chars_nonascii hascii,
      urlDecode3_id l hpct hplus,
      stripChars_id _ _ inv_chars_nonascii hascii,
      stripChars_id _ _ bidi_chars_nonascii hascii,
      applyHtmlEntities_id l hamp]
  have hpost : normalizePost l = jsTrim (collapseWs l) := by
    unfold normalizePost
    rw [nfkc_id l hascii, normalizeHomoglyphs_id l hascii]
  refine ⟨?_, hpost⟩
  show normalizeStage1 (normalizePre l) = some ⟨normalizePost l⟩
  rw [hpre]
  unfold normalizeStage1
  rw [decodeHexEntities_id l hamp (l.length + 1)]
  show normalizeStage2 l = some ⟨normalizePost l⟩
  unfold normalizeStage2
  rw [decodeDecEntities_id l hamp (l.length + 1)]

/-- Plain ASCII survives collapse-and-trim. -/
theorem plainAscii_w (l : List Char) (h : ∀ c ∈ l, plainAscii c = true) :
    ∀ c ∈ jsTrim (collapseWs l), plainAscii c = true := by
  intro c hc
  have hc2 : c ∈ collapseWs l := jsTrim_mem _ c hc
  rcases collapseWsAux_mem l false c hc2 with h1 | h1
  · subst h1
    decide
  · exact h c h1

/-- C6: the spec claims `normalize(normalize(s)) == normalize(s)` for
every input.  That is false — the fixed HTML-entity pass replaces
`&amp;` after `&lt;`, so a first pass can manufacture entities the
second pass then decodes (see `normalize_not_idempotent`).  Amended: on
strings of printable ASCII free of `%`, `+` and `&`, one application
collapses whitespace runs to single spaces and trims, and a second
application returns its input unchanged, so the pipeline is idempotent
on that fragment. -/
theorem normalize_idempotent_amended (s : String)
    (h : s.data.all plainAscii = true) :
    normalizeForPatternMatching s = some ⟨jsTrim (collapseWs s.data)⟩ ∧
    normalizeForPatternMatching ⟨jsTrim (collapseWs s.data)⟩ =
      some ⟨jsTrim (collapseWs s.data)⟩ := by
  obtain ⟨l⟩ := s
  show normalizeForPatternMatching ⟨l⟩ = some ⟨jsTrim (collapseWs l)⟩ ∧
    normalizeForPatternMatching ⟨jsTrim (collapseWs l)⟩ =
      some ⟨jsTrim (collapseWs l)⟩
  have h2 : ∀ c ∈ l, plainAscii c = true :=
    fun c hc => List.all_eq_true.mp h c hc
  obtain ⟨he1, hp1⟩ := normalize_eval_plain l h2
  obtain ⟨he2, hp2⟩ := normalize_eval_plain (jsTrim (collapseWs l)) (plainAscii_w l h2)
  constructor
  · rw [he1, hp1]
  · rw [he2, hp2, wCollapse_idem l]

/-- Witness for `normalize_idempotent_amended` at `"a  b "`: the run of
two spaces collapses, the trailing space is trimmed, and the result is a
fixpoint. -/
theorem normalize_idempotent_amended_witness :
    ("a  b " : String).data.all plainAscii = true ∧
    (normalizeForPatternMatching "a  b " = some "a b" ∧
     normalizeForPatternMatching "a b" = some "a b") := by
  have h := normalize_idempotent_amended "a  b " (by decide)
  refine ⟨by decide, ?_, ?_⟩
  · rw [h.1]
    decide
  · have e : (⟨jsTrim (collapseWs ("a  b " : String).data)⟩ : String) = "a b" := by
      decide
    rw [← e]
    exact h.2

/-- C6 counterexample: one pass turns `&amp;lt;` into `&lt;` (the
`&amp;` replacement runs after the `&lt;` one and manufactures a fresh
entity), and a second pass decodes that to `<`, so the normalization
pipeline is not idempotent. -/
theorem normalize_not_idempotent :
    normalizeForPatternMatching "&amp;lt;" = some "&lt;" ∧
    normalizeForPatternMatching "&lt;" = some "<" ∧
    ("&lt;" : String) ≠ "<" := by
  refine ⟨by decide, by decide, by decide⟩

end Overwatch
